import Mathlib

/-!
Verification development for the QuantDinger Python backend
(`backend_api_python/app`): a shallow embedding, in Lean 4, of the parts of
the code that the specification's claims are about, together with theorems
settling each claim.

Conventions of the embedding:
* Python numbers (`float` prices, volumes, thresholds and elapsed seconds)
  are modelled as exact rationals `ℚ`; Python's decimal `round(x, n)`
  (round-half-to-even) is modelled exactly on `ℚ` by `pyRound`.
* Unix timestamps are `Int` (seconds).
* Python `dict.get(k, d)` defaulting is modelled by `Option` plus explicit
  defaulting; Python truthiness tests (`if not before_time`, `if cached`,
  `if prev_close`) are modelled by the corresponding explicit tests
  (`= 0` / `= none`, non-emptiness, `≠ 0`).
* External effects (upstream data providers, the key-value cache, the
  relational store, notification transports) are passed in explicitly as
  function arguments / environment records, and the cache reads and writes
  a function performs are returned alongside its result so that cache
  behaviour can be stated.
-/

namespace QuantDinger

/-! ### Python decimal rounding

`round(x, n)` in Python rounds half to even.  On exact rationals this is
`roundHalfEven (x * 10^n) / 10^n`. -/

/-- Round a rational to the nearest integer, halves to the even neighbour
(Python's `round` on a number with fractional part exactly 1/2). -/
def roundHalfEven (x : ℚ) : ℤ :=
  let n : ℤ := ⌊x⌋
  let r : ℚ := x - n
  if r < 1/2 then n
  else if 1/2 < r then n + 1
  else if 2 ∣ n then n else n + 1

/-- Python's `round(x, ndigits)` on exact rationals. -/
def pyRound (ndigits : ℕ) (x : ℚ) : ℚ :=
  (roundHalfEven (x * 10 ^ ndigits) : ℚ) / 10 ^ ndigits

theorem roundHalfEven_intCast (n : ℤ) : roundHalfEven (n : ℚ) = n := by
  unfold roundHalfEven
  simp

/-- `x` is exactly representable with `ndigits` decimal digits
(`x * 10^ndigits` is an integer). -/
def decQ (ndigits : ℕ) (x : ℚ) : Prop := (x * 10 ^ ndigits).den = 1

instance (ndigits : ℕ) (x : ℚ) : Decidable (decQ ndigits x) := by
  unfold decQ; infer_instance

theorem decQ_intCast (ndigits : ℕ) (m : ℤ) : decQ ndigits ((m : ℤ) : ℚ) := by
  unfold decQ
  rw [show ((m : ℚ) * 10 ^ ndigits) = ((m * 10 ^ ndigits : ℤ) : ℚ) by push_cast; ring]
  exact Rat.den_intCast _

theorem decQ_of_den_one {x : ℚ} (h : x.den = 1) (ndigits : ℕ) : decQ ndigits x := by
  have hx : x = (x.num : ℚ) := by
    conv_lhs => rw [← Rat.num_div_den x]
    rw [h]
    simp
  rw [hx]
  exact decQ_intCast ndigits x.num

theorem pyRound_eq_self {ndigits : ℕ} {x : ℚ} (h : decQ ndigits x) :
    pyRound ndigits x = x := by
  unfold decQ at h
  unfold pyRound
  have hx : ((x * 10 ^ ndigits).num : ℚ) = x * 10 ^ ndigits := by
    conv_rhs => rw [← Rat.num_div_den (x * 10 ^ ndigits)]
    rw [h]
    simp
  rw [← hx, roundHalfEven_intCast, hx]
  have h10 : (10 : ℚ) ^ ndigits ≠ 0 := by positivity
  field_simp

theorem decQ_max {ndigits : ℕ} {x y : ℚ} (hx : decQ ndigits x) (hy : decQ ndigits y) :
    decQ ndigits (max x y) := by
  rcases max_choice x y with h | h <;> rw [h] <;> assumption

theorem decQ_min {ndigits : ℕ} {x y : ℚ} (hx : decQ ndigits x) (hy : decQ ndigits y) :
    decQ ndigits (min x y) := by
  rcases min_choice x y with h | h <;> rw [h] <;> assumption

theorem decQ_add {ndigits : ℕ} {x y : ℚ} (hx : decQ ndigits x) (hy : decQ ndigits y) :
    decQ ndigits (x + y) := by
  unfold decQ at *
  rw [add_mul]
  have hx' : (x * 10 ^ ndigits) = ((x * 10 ^ ndigits).num : ℚ) := by
    conv_lhs => rw [← Rat.num_div_den (x * 10 ^ ndigits)]
    rw [hx]; simp
  have hy' : (y * 10 ^ ndigits) = ((y * 10 ^ ndigits).num : ℚ) := by
    conv_lhs => rw [← Rat.num_div_den (y * 10 ^ ndigits)]
    rw [hy]; simp
  rw [hx', hy', ← Int.cast_add]
  exact Rat.den_intCast _

/-! ### Data model: candles -/

/-- One OHLCV candle, the canonical shape produced by
`BaseDataSource.format_kline` and consumed everywhere else
(`{"time": int, "open": float, "high": float, "low": float,
"close": float, "volume": float}`).  The `open` field is named
`open_price` (the name of the corresponding `format_kline` parameter)
because `open` is a Lean keyword. -/
structure Candle where
  time : Int
  open_price : ℚ
  high : ℚ
  low : ℚ
  close : ℚ
  volume : ℚ
deriving DecidableEq, Repr

/-- `BaseDataSource.format_kline`: builds a candle, rounding prices to 4
decimal digits and volume to 2 (`round(float(open_price), 4)`, …,
`round(float(volume), 2)`). -/
def format_kline (timestamp : Int) (open_price high low close volume : ℚ) : Candle :=
  { time := timestamp
    open_price := pyRound 4 open_price
    high := pyRound 4 high
    low := pyRound 4 low
    close := pyRound 4 close
    volume := pyRound 2 volume }

/-! ### `BaseDataSource.filter_and_limit` (C3)

```python
klines.sort(key=lambda x: x['time'])
if before_time:
    klines = [k for k in klines if k['time'] < before_time]
if len(klines) > limit:
    klines = klines[-limit:]
return klines
```
`klines.sort` is Python's stable ascending sort, modelled by the (equally
stable) insertion sort on the key `time`.  `if before_time:` is a
truthiness test: it is skipped both when `before_time` is `None` and when
it is `0`.  `klines[-limit:]` for `limit = 0` is `klines[0:]`, the whole
list. -/

/-- Python's `l[-n:]`: the last `n` entries, except that `n = 0` yields the
whole list (`l[-0:] = l[0:] = l`). -/
def pySliceLast (n : ℕ) (l : List Candle) : List Candle :=
  if n = 0 then l else l.drop (l.length - n)

/-- Comparison used by `klines.sort(key=lambda x: x['time'])`. -/
def timeLe (a b : Candle) : Prop := a.time ≤ b.time

instance : DecidableRel timeLe := fun a b => by unfold timeLe; infer_instance

instance : IsTotal Candle timeLe := ⟨fun a b => Int.le_total a.time b.time⟩

instance : IsTrans Candle timeLe := ⟨fun _ _ _ h h' => Int.le_trans h h'⟩

/-- `klines.sort(key=lambda x: x['time'])`: Python's sort is a stable
ascending sort, modelled by stable insertion sort on the `time` key. -/
def pySortByTime (klines : List Candle) : List Candle :=
  klines.insertionSort timeLe

/-- The `before_time` filtering step of `filter_and_limit`
(`if before_time: klines = [k for k in klines if k['time'] < before_time]`);
`before_time` values `None` and `0` are both falsy, so they skip
the filter. -/
def beforeFilter (before_time : Option Int) (l : List Candle) : List Candle :=
  match before_time with
  | some t => if t = 0 then l else l.filter (fun k => decide (k.time < t))
  | none => l

/-- `BaseDataSource.filter_and_limit`. -/
def filter_and_limit (klines : List Candle) (limit : ℕ) (before_time : Option Int) :
    List Candle :=
  let filtered := beforeFilter before_time (pySortByTime klines)
  if filtered.length > limit then pySliceLast limit filtered else filtered

theorem pySliceLast_suffix (n : ℕ) (l : List Candle) : pySliceLast n l <:+ l := by
  unfold pySliceLast
  split
  · exact List.suffix_rfl
  · exact List.drop_suffix _ _

theorem filter_and_limit_suffix (klines : List Candle) (limit : ℕ)
    (before_time : Option Int) :
    filter_and_limit klines limit before_time <:+
      beforeFilter before_time (pySortByTime klines) := by
  unfold filter_and_limit
  dsimp only
  split
  · exact pySliceLast_suffix _ _
  · exact List.suffix_rfl

theorem beforeFilter_sublist (before_time : Option Int) (l : List Candle) :
    (beforeFilter before_time l).Sublist l := by
  unfold beforeFilter
  match before_time with
  | some t =>
    dsimp only
    split
    · exact List.Sublist.refl l
    · exact List.filter_sublist l
  | none => exact List.Sublist.refl l

theorem mem_beforeFilter_time {before_time : Option Int} {t : Int} {l : List Candle}
    (hbt : before_time = some t) (ht : t ≠ 0) {k : Candle}
    (hk : k ∈ beforeFilter before_time l) : k.time < t := by
  subst hbt
  unfold beforeFilter at hk
  simp only [if_neg ht] at hk
  simpa using (List.of_mem_filter hk)

theorem pairwise_pySortByTime (klines : List Candle) :
    (pySortByTime klines).Pairwise timeLe :=
  List.sorted_insertionSort timeLe klines

theorem perm_pySortByTime (klines : List Candle) :
    (pySortByTime klines).Perm klines :=
  List.perm_insertionSort timeLe klines

theorem filter_and_limit_length (klines : List Candle) {limit : ℕ} (hlim : 0 < limit)
    (before_time : Option Int) :
    (filter_and_limit klines limit before_time).length ≤ limit := by
  unfold filter_and_limit
  dsimp only
  split
  · unfold pySliceLast
    rw [if_neg (Nat.pos_iff_ne_zero.mp hlim)]
    simp only [List.length_drop]
    omega
  · omega

/-- C3, amended.  `filter_and_limit` sorts ascending by `time` (stably),
filters to `time < before_time` when `before_time` is given and nonzero
(`before_time = 0` is falsy in Python and skips the filter), and truncates
to the most recent `limit` entries (a suffix of the sorted, filtered list).
For a positive requested `limit`, the result's `time` values are
non-decreasing — not strictly increasing, as there is no deduplication
step — its length is at most `limit`, and every returned candle comes from
the input list. -/
theorem claim_C3_amended (klines : List Candle) (limit : ℕ) (before_time : Option Int)
    (hlim : 0 < limit) :
    (filter_and_limit klines limit before_time).Pairwise timeLe ∧
    (filter_and_limit klines limit before_time).length ≤ limit ∧
    (∀ t : Int, before_time = some t → t ≠ 0 →
      ∀ k ∈ filter_and_limit klines limit before_time, k.time < t) ∧
    (∀ k ∈ filter_and_limit klines limit before_time, k ∈ klines) ∧
    filter_and_limit klines limit before_time <:+
      beforeFilter before_time (pySortByTime klines) := by
  have hsuf := filter_and_limit_suffix klines limit before_time
  have hsubF : (filter_and_limit klines limit before_time).Sublist
      (beforeFilter before_time (pySortByTime klines)) := hsuf.sublist
  have hsubS : (filter_and_limit klines limit before_time).Sublist
      (pySortByTime klines) :=
    hsubF.trans (beforeFilter_sublist before_time (pySortByTime klines))
  refine ⟨?_, filter_and_limit_length klines hlim before_time, ?_, ?_, hsuf⟩
  · exact (pairwise_pySortByTime klines).sublist hsubS
  · intro t hbt ht k hk
    exact mem_beforeFilter_time hbt ht (hsubF.subset hk)
  · intro k hk
    exact (perm_pySortByTime klines).subset (hsubS.subset hk)

/-- Input for the C3 counterexample: two distinct candles sharing `time = 5`. -/
def cexCandleA : Candle := ⟨5, 1, 1, 1, 1, 1⟩

/-- Second candle of the C3 counterexample, also at `time = 5`. -/
def cexCandleB : Candle := ⟨5, 2, 2, 2, 2, 2⟩

/-- C3 counterexample.  On two distinct candles with the same `time`,
`filter_and_limit` keeps both occurrences (the claimed deduplication by
`time` keeping the last occurrence never happens — the claimed result
would be `[cexCandleB]`), so the returned `time` values are not strictly
increasing. -/
theorem claim_C3_counterexample :
    filter_and_limit [cexCandleA, cexCandleB] 10 none = [cexCandleA, cexCandleB] ∧
    ¬ (filter_and_limit [cexCandleA, cexCandleB] 10 none).Pairwise
        (fun a b => a.time < b.time) := by
  constructor
  · decide
  · decide

/-- C3 witness: the amended theorem applied to a concrete query. -/
theorem claim_C3_witness :
    (filter_and_limit [cexCandleA, cexCandleB] 1 (some 6)).Pairwise timeLe ∧
    (filter_and_limit [cexCandleA, cexCandleB] 1 (some 6)).length ≤ 1 ∧
    (∀ t : Int, (some 6 : Option Int) = some t → t ≠ 0 →
      ∀ k ∈ filter_and_limit [cexCandleA, cexCandleB] 1 (some 6), k.time < t) ∧
    (∀ k ∈ filter_and_limit [cexCandleA, cexCandleB] 1 (some 6),
      k ∈ [cexCandleA, cexCandleB]) ∧
    filter_and_limit [cexCandleA, cexCandleB] 1 (some 6) <:+
      beforeFilter (some 6) (pySortByTime [cexCandleA, cexCandleB]) :=
  claim_C3_amended [cexCandleA, cexCandleB] 1 (some 6) (by decide)

/-! ### Synthetic timeframe aggregation (C4, C5)

`TencentDataMixin._fetch_and_aggregate_4h` (cn_stock.py): walks the 1-hour
candles in steps of 4; a full batch of 4 is aggregated via `format_kline`
(so the aggregate is rounded like any other candle); a trailing batch with
fewer than 4 candles hits `if len(batch) < 4: break` and is discarded.

`ForexDataSource._aggregate_to_weekly` / `_aggregate_to_monthly`
(forex.py): a single pass over the daily candles, grouping consecutive
candles with the same calendar bucket key (`'%Y-%W'` week label resp.
`'%Y-%m'` month label); when the key changes, the accumulated bucket is
appended and a new one is seeded; after the loop the final bucket is
appended unconditionally (`if week_data: weekly_klines.append(week_data)`).
Both functions are embedded by one definition parameterised by the
calendar functions `key` (bucket label; only equality of labels matters,
so it is represented as `Int → Int`) and `bstart` (bucket-start timestamp:
`dt - timedelta(days=dt.weekday())`, which keeps the time of day, for
weeks; `dt.replace(day=1, hour=0, minute=0, second=0)` for months).
Python's initial `current_week = None` state always differs from the first
candle's key, so the first candle always seeds the first bucket; the
embedding starts the loop in that seeded state. -/

/-- The candle built for one full 4-hour batch:
`format_kline(timestamp=batch[0].time, open=batch[0].open,
high=max(highs), low=min(lows), close=batch[-1].close,
volume=sum(volumes))`. -/
def agg4Candle (c0 c1 c2 c3 : Candle) : Candle :=
  format_kline c0.time c0.open_price
    (max (max (max c0.high c1.high) c2.high) c3.high)
    (min (min (min c0.low c1.low) c2.low) c3.low)
    c3.close
    (c0.volume + c1.volume + c2.volume + c3.volume)

/-- The batch loop of `_fetch_and_aggregate_4h`: aggregate each full group
of 4 consecutive candles, discard a trailing group of fewer than 4. -/
def aggregate4h : List Candle → List Candle
  | c0 :: c1 :: c2 :: c3 :: rest => agg4Candle c0 c1 c2 c3 :: aggregate4h rest
  | _ => []

/-- `_fetch_and_aggregate_4h` after the fetch: empty input yields `[]`,
otherwise aggregate and keep the most recent `limit` entries
(`aggregated[-limit:] if len(aggregated) > limit else aggregated`). -/
def fetch_and_aggregate_4h (hour_klines : List Candle) (limit : ℕ) : List Candle :=
  if hour_klines = [] then []
  else
    let aggregated := aggregate4h hour_klines
    if aggregated.length > limit then pySliceLast limit aggregated else aggregated

/-- Seeding a new weekly/monthly bucket from its first daily candle. -/
def seedBucket (bstart : Int → Int) (k : Candle) : Candle :=
  ⟨bstart k.time, k.open_price, k.high, k.low, k.close, k.volume⟩

/-- Folding one further daily candle into the current weekly/monthly bucket
(`high = max(...)`, `low = min(...)`, `close = kline['close']`,
`volume += kline['volume']`; `time` and `open` untouched). -/
def mergeBucket (w k : Candle) : Candle :=
  ⟨w.time, w.open_price, max w.high k.high, min w.low k.low, k.close,
    w.volume + k.volume⟩

/-- The grouping loop of `_aggregate_to_weekly` / `_aggregate_to_monthly`:
`cw` is the current bucket's key, `wd` the accumulated bucket, `out` the
buckets emitted so far.  After the loop the final bucket is appended
unconditionally. -/
def weeklyGo (key bstart : Int → Int) (cw : Int) (wd : Candle) (out : List Candle) :
    List Candle → List Candle
  | [] => out ++ [wd]
  | k :: rest =>
    if key k.time ≠ cw then
      weeklyGo key bstart (key k.time) (seedBucket bstart k) (out ++ [wd]) rest
    else
      weeklyGo key bstart cw (mergeBucket wd k) out rest

/-- `ForexDataSource._aggregate_to_weekly` (and, with month-calendar
parameters, `_aggregate_to_monthly`). -/
def aggregate_to_weekly (key bstart : Int → Int) : List Candle → List Candle
  | [] => []
  | k :: rest => weeklyGo key bstart (key k.time) (seedBucket bstart k) [] rest

/-- Python `datetime.weekday()` for a UTC timestamp: 0 = Monday.  Day 0 of
the Unix epoch (1970-01-01) was a Thursday, weekday 3. -/
def weekdayUTC (t : Int) : Int := (Int.fdiv t 86400 + 3) % 7

/-- `dt - timedelta(days=dt.weekday())`: the timestamp moved back to the
Monday of its week, keeping the time of day. -/
def weekStartUTC (t : Int) : Int := t - 86400 * weekdayUTC t

/-- A concrete week-bucket key for UTC timestamps: the day index of the
week's Monday.  It groups timestamps by Monday-started week, the grouping
`strftime('%Y-%W')` implements (up to label names at year boundaries,
which none of the claims depend on). -/
def weekKeyUTC (t : Int) : Int := Int.fdiv (weekStartUTC t) 86400

/-- The value of a bucket accumulated from first candle `c` and the further
candles `cs` (in order): `seedBucket`, then `mergeBucket` per candle. -/
def bucketAgg (bstart : Int → Int) (c : Candle) (cs : List Candle) : Candle :=
  cs.foldl mergeBucket (seedBucket bstart c)

theorem foldl_mergeBucket_open (cs : List Candle) (w : Candle) :
    (cs.foldl mergeBucket w).open_price = w.open_price := by
  induction cs generalizing w with
  | nil => rfl
  | cons k cs ih => simpa using ih (mergeBucket w k)

theorem foldl_mergeBucket_time (cs : List Candle) (w : Candle) :
    (cs.foldl mergeBucket w).time = w.time := by
  induction cs generalizing w with
  | nil => rfl
  | cons k cs ih => simpa using ih (mergeBucket w k)

theorem foldl_mergeBucket_close (cs : List Candle) (w : Candle) :
    (cs.foldl mergeBucket w).close = (cs.getLastD w).close := by
  induction cs generalizing w with
  | nil => rfl
  | cons k cs ih =>
    rw [List.foldl_cons, ih (mergeBucket w k), List.getLastD_cons]
    cases cs with
    | nil => rfl
    | cons c cs' => rw [List.getLastD_cons, List.getLastD_cons]

theorem foldl_mergeBucket_volume (cs : List Candle) (w : Candle) :
    (cs.foldl mergeBucket w).volume = w.volume + (cs.map Candle.volume).sum := by
  induction cs generalizing w with
  | nil => simp
  | cons k cs ih =>
    rw [List.foldl_cons, ih (mergeBucket w k)]
    show w.volume + k.volume + (cs.map Candle.volume).sum = _
    simp [add_assoc]

theorem foldl_mergeBucket_high_le (cs : List Candle) (w : Candle) :
    w.high ≤ (cs.foldl mergeBucket w).high ∧
      ∀ k ∈ cs, k.high ≤ (cs.foldl mergeBucket w).high := by
  induction cs generalizing w with
  | nil => exact ⟨le_refl _, by simp⟩
  | cons k cs ih =>
    rcases ih (mergeBucket w k) with ⟨h1, h2⟩
    have hwk : (mergeBucket w k).high = max w.high k.high := rfl
    rw [hwk] at h1
    refine ⟨le_trans (le_max_left _ _) h1, ?_⟩
    intro k' hk'
    rcases List.mem_cons.mp hk' with h | h
    · subst h; exact le_trans (le_max_right _ _) h1
    · exact h2 k' h

theorem foldl_mergeBucket_low_le (cs : List Candle) (w : Candle) :
    (cs.foldl mergeBucket w).low ≤ w.low ∧
      ∀ k ∈ cs, (cs.foldl mergeBucket w).low ≤ k.low := by
  induction cs generalizing w with
  | nil => exact ⟨le_refl _, by simp⟩
  | cons k cs ih =>
    rcases ih (mergeBucket w k) with ⟨h1, h2⟩
    have hwk : (mergeBucket w k).low = min w.low k.low := rfl
    rw [hwk] at h1
    refine ⟨le_trans h1 (min_le_left _ _), ?_⟩
    intro k' hk'
    rcases List.mem_cons.mp hk' with h | h
    · subst h; exact le_trans h1 (min_le_right _ _)
    · exact h2 k' h

theorem foldl_mergeBucket_high_mem (cs : List Candle) (w : Candle) :
    (cs.foldl mergeBucket w).high = w.high ∨
      (cs.foldl mergeBucket w).high ∈ cs.map Candle.high := by
  induction cs generalizing w with
  | nil => exact Or.inl rfl
  | cons k cs ih =>
    rw [List.foldl_cons]
    rcases ih (mergeBucket w k) with h | h
    · rw [h]
      have : (mergeBucket w k).high = max w.high k.high := rfl
      rw [this]
      rcases max_choice w.high k.high with h' | h'
      · exact Or.inl h'
      · exact Or.inr (by rw [h']; simp)
    · exact Or.inr (by simp only [List.map_cons, List.mem_cons]; exact Or.inr h)

theorem foldl_mergeBucket_low_mem (cs : List Candle) (w : Candle) :
    (cs.foldl mergeBucket w).low = w.low ∨
      (cs.foldl mergeBucket w).low ∈ cs.map Candle.low := by
  induction cs generalizing w with
  | nil => exact Or.inl rfl
  | cons k cs ih =>
    rw [List.foldl_cons]
    rcases ih (mergeBucket w k) with h | h
    · rw [h]
      have : (mergeBucket w k).low = min w.low k.low := rfl
      rw [this]
      rcases min_choice w.low k.low with h' | h'
      · exact Or.inl h'
      · exact Or.inr (by rw [h']; simp)
    · exact Or.inr (by simp only [List.map_cons, List.mem_cons]; exact Or.inr h)

/-- A bucket of the weekly/monthly aggregation: a contiguous, nonempty run
`c :: cs` of the input whose candles all share the bucket key, whose
aggregate the output candle is. -/
def IsBucketOf (key bstart : Int → Int) (daily : List Candle) (w : Candle) : Prop :=
  ∃ c cs, (∃ s t, s ++ ((c :: cs) ++ t) = daily) ∧
    (∀ k ∈ cs, key k.time = key c.time) ∧
    w = bucketAgg bstart c cs

theorem weeklyGo_buckets (key bstart : Int → Int) (daily : List Candle) :
    ∀ (rest : List Candle) (cw : Int) (c : Candle) (cs out : List Candle),
      (∀ w ∈ out, IsBucketOf key bstart daily w) →
      (∃ p, p ++ ((c :: cs) ++ rest) = daily) →
      key c.time = cw →
      (∀ k ∈ cs, key k.time = cw) →
      ∀ w ∈ weeklyGo key bstart cw (bucketAgg bstart c cs) out rest,
        IsBucketOf key bstart daily w := by
  intro rest
  induction rest with
  | nil =>
    intro cw c cs out hout ⟨p, hp⟩ hkc hks w hw
    rw [weeklyGo] at hw
    rcases List.mem_append.mp hw with h | h
    · exact hout w h
    · have hww : w = bucketAgg bstart c cs := by simpa using h
      refine ⟨c, cs, ⟨p, [], ?_⟩, ?_, hww⟩
      · simpa using hp
      · intro k hk; rw [hks k hk, hkc]
  | cons k rest ih =>
    intro cw c cs out hout ⟨p, hp⟩ hkc hks w hw
    rw [weeklyGo] at hw
    by_cases hne : key k.time ≠ cw
    · rw [if_pos hne] at hw
      have hseed : seedBucket bstart k = bucketAgg bstart k [] := rfl
      rw [hseed] at hw
      refine ih (key k.time) k [] (out ++ [bucketAgg bstart c cs]) ?_ ?_ rfl
        (by intro k' hk'; simp at hk') w hw
      · intro w' hw'
        rcases List.mem_append.mp hw' with h | h
        · exact hout w' h
        · have hww : w' = bucketAgg bstart c cs := by simpa using h
          refine ⟨c, cs, ⟨p, k :: rest, hp⟩, ?_, hww⟩
          intro k' hk'; rw [hks k' hk', hkc]
      · exact ⟨p ++ (c :: cs), by rw [← hp]; simp⟩
    · rw [if_neg hne] at hw
      push_neg at hne
      have hmerge : mergeBucket (bucketAgg bstart c cs) k = bucketAgg bstart c (cs ++ [k]) := by
        unfold bucketAgg
        rw [List.foldl_concat]
      rw [hmerge] at hw
      refine ih cw c (cs ++ [k]) out hout ⟨p, ?_⟩ hkc ?_ w hw
      · rw [← hp]; simp
      · intro k' hk'
        rcases List.mem_append.mp hk' with h | h
        · exact hks k' h
        · have : k' = k := by simpa using h
          rw [this, hne]

theorem mem_aggregate_to_weekly {key bstart : Int → Int} {daily : List Candle}
    {w : Candle} (hw : w ∈ aggregate_to_weekly key bstart daily) :
    IsBucketOf key bstart daily w := by
  match daily with
  | [] => simp [aggregate_to_weekly] at hw
  | k :: rest =>
    rw [aggregate_to_weekly] at hw
    have hseed : seedBucket bstart k = bucketAgg bstart k [] := rfl
    rw [hseed] at hw
    exact weeklyGo_buckets key bstart (k :: rest) rest (key k.time) k [] []
      (by intro w' hw'; simp at hw') ⟨[], by simp⟩ rfl
      (by intro k' hk'; simp at hk') w hw

theorem mem_aggregate4h : ∀ (l : List Candle) (w : Candle), w ∈ aggregate4h l →
    ∃ c0 c1 c2 c3, (∃ s t, s ++ ([c0, c1, c2, c3] ++ t) = l) ∧
      w = agg4Candle c0 c1 c2 c3
  | c0 :: c1 :: c2 :: c3 :: rest, w, hw => by
    rw [aggregate4h] at hw
    rcases List.mem_cons.mp hw with h | h
    · exact ⟨c0, c1, c2, c3, ⟨[], rest, rfl⟩, h⟩
    · obtain ⟨d0, d1, d2, d3, ⟨s, t, hst⟩, hww⟩ := mem_aggregate4h rest w h
      exact ⟨d0, d1, d2, d3, ⟨c0 :: c1 :: c2 :: c3 :: s, t, by rw [← hst]; rfl⟩, hww⟩
  | [], w, hw => by simp [aggregate4h] at hw
  | [_], w, hw => by simp [aggregate4h] at hw
  | [_, _], w, hw => by simp [aggregate4h] at hw
  | [_, _, _], w, hw => by simp [aggregate4h] at hw

theorem mem_fetch_and_aggregate_4h {hour_klines : List Candle} {limit : ℕ}
    {w : Candle} (hw : w ∈ fetch_and_aggregate_4h hour_klines limit) :
    w ∈ aggregate4h hour_klines := by
  unfold fetch_and_aggregate_4h at hw
  split at hw
  · simp at hw
  · dsimp only at hw
    split at hw
    · exact ((pySliceLast_suffix limit _).sublist.subset) hw
    · exact hw

/-- All five numeric fields of a candle are exactly representable at the
precision `format_kline` emits (4 decimal digits for prices, 2 for
volume); every candle flowing out of `format_kline` satisfies this. -/
def WellFormedCandle (k : Candle) : Prop :=
  decQ 4 k.open_price ∧ decQ 4 k.high ∧ decQ 4 k.low ∧ decQ 4 k.close ∧
    decQ 2 k.volume

instance (k : Candle) : Decidable (WellFormedCandle k) := by
  unfold WellFormedCandle; infer_instance

theorem agg4Candle_eq_of_wellFormed {c0 c1 c2 c3 : Candle}
    (h0 : WellFormedCandle c0) (h1 : WellFormedCandle c1)
    (h2 : WellFormedCandle c2) (h3 : WellFormedCandle c3) :
    agg4Candle c0 c1 c2 c3 =
      ⟨c0.time, c0.open_price,
        max (max (max c0.high c1.high) c2.high) c3.high,
        min (min (min c0.low c1.low) c2.low) c3.low,
        c3.close,
        c0.volume + c1.volume + c2.volume + c3.volume⟩ := by
  obtain ⟨o0, hh0, l0, cl0, v0⟩ := h0
  obtain ⟨o1, hh1, l1, cl1, v1⟩ := h1
  obtain ⟨o2, hh2, l2, cl2, v2⟩ := h2
  obtain ⟨o3, hh3, l3, cl3, v3⟩ := h3
  unfold agg4Candle format_kline
  congr 1
  · exact pyRound_eq_self o0
  · exact pyRound_eq_self (decQ_max (decQ_max (decQ_max hh0 hh1) hh2) hh3)
  · exact pyRound_eq_self (decQ_min (decQ_min (decQ_min l0 l1) l2) l3)
  · exact pyRound_eq_self cl3
  · exact pyRound_eq_self (decQ_add (decQ_add (decQ_add v0 v1) v2) v3)

/-- C4.  Every candle emitted by the 4-hour aggregation comes from a run of
4 consecutive source candles with `time` = the bucket start (the first
candle's time), `open` = the first candle's open, `close` = the last
candle's close, `high` = max of the highs (hence ≥ each), `low` = min of
the lows (hence ≤ each), and `volume` = the exact sum of the volumes
(exact because the inputs are `format_kline`-quantised, so the rounding
`format_kline` applies to the aggregate is the identity); and every candle
emitted by the weekly/monthly aggregation comes from a contiguous nonempty
run of daily candles sharing its bucket key, with the same per-bucket
derivation (no rounding at all on this path). -/
theorem claim_C4 :
    (∀ (hour_klines : List Candle) (limit : ℕ),
      (∀ k ∈ hour_klines, WellFormedCandle k) →
      ∀ w ∈ fetch_and_aggregate_4h hour_klines limit,
        ∃ c0 c1 c2 c3,
          (∃ s t, s ++ ([c0, c1, c2, c3] ++ t) = hour_klines) ∧
          w.time = c0.time ∧
          w.open_price = c0.open_price ∧
          w.close = c3.close ∧
          w.high = max (max (max c0.high c1.high) c2.high) c3.high ∧
          w.low = min (min (min c0.low c1.low) c2.low) c3.low ∧
          w.volume = c0.volume + c1.volume + c2.volume + c3.volume ∧
          (∀ k ∈ [c0, c1, c2, c3], k.high ≤ w.high ∧ w.low ≤ k.low)) ∧
    (∀ (key bstart : Int → Int) (daily : List Candle),
      ∀ w ∈ aggregate_to_weekly key bstart daily,
        ∃ c cs,
          (∃ s t, s ++ ((c :: cs) ++ t) = daily) ∧
          (∀ k ∈ cs, key k.time = key c.time) ∧
          w.time = bstart c.time ∧
          w.open_price = c.open_price ∧
          w.close = (cs.getLastD c).close ∧
          (w.high = c.high ∨ w.high ∈ cs.map Candle.high) ∧
          (w.low = c.low ∨ w.low ∈ cs.map Candle.low) ∧
          w.volume = c.volume + (cs.map Candle.volume).sum ∧
          (∀ k ∈ c :: cs, k.high ≤ w.high ∧ w.low ≤ k.low)) := by
  constructor
  · intro hour_klines limit hwf w hw
    obtain ⟨c0, c1, c2, c3, ⟨s, t, hst⟩, hww⟩ :=
      mem_aggregate4h hour_klines w (mem_fetch_and_aggregate_4h hw)
    have hmem : ∀ k ∈ [c0, c1, c2, c3], k ∈ hour_klines := by
      intro k hk
      rw [← hst]
      have hk4 : k = c0 ∨ k = c1 ∨ k = c2 ∨ k = c3 := by simpa using hk
      rcases hk4 with rfl | rfl | rfl | rfl <;> simp
    have heq := agg4Candle_eq_of_wellFormed
      (hwf c0 (hmem c0 (by simp))) (hwf c1 (hmem c1 (by simp)))
      (hwf c2 (hmem c2 (by simp))) (hwf c3 (hmem c3 (by simp)))
    rw [heq] at hww
    subst hww
    refine ⟨c0, c1, c2, c3, ⟨s, t, hst⟩, rfl, rfl, rfl, rfl, rfl, rfl, ?_⟩
    intro k hk
    rcases List.mem_cons.mp hk with rfl | hk'
    · constructor
      · show k.high ≤ max (max (max k.high c1.high) c2.high) c3.high
        simp [le_max_iff]
      · show min (min (min k.low c1.low) c2.low) c3.low ≤ k.low
        simp [min_le_iff]
    rcases List.mem_cons.mp hk' with rfl | hk''
    · exact ⟨by show k.high ≤ max _ _; simp [le_max_iff],
        by show min _ _ ≤ k.low; simp [min_le_iff]⟩
    rcases List.mem_cons.mp hk'' with rfl | hk3
    · exact ⟨by show k.high ≤ max _ _; simp [le_max_iff],
        by show min _ _ ≤ k.low; simp [min_le_iff]⟩
    have : k = c3 := by simpa using hk3
    subst this
    exact ⟨le_max_right _ _, min_le_right _ _⟩
  · intro key bstart daily w hw
    obtain ⟨c, cs, hrun, hkeys, hww⟩ := mem_aggregate_to_weekly hw
    subst hww
    have hseedh : (seedBucket bstart c).high = c.high := rfl
    have hseedl : (seedBucket bstart c).low = c.low := rfl
    obtain ⟨hub, hubs⟩ := foldl_mergeBucket_high_le cs (seedBucket bstart c)
    obtain ⟨hlb, hlbs⟩ := foldl_mergeBucket_low_le cs (seedBucket bstart c)
    refine ⟨c, cs, hrun, hkeys,
      foldl_mergeBucket_time cs (seedBucket bstart c),
      foldl_mergeBucket_open cs (seedBucket bstart c), ?_, ?_, ?_, ?_, ?_⟩
    · rw [bucketAgg, foldl_mergeBucket_close]
      cases cs with
      | nil => rfl
      | cons x xs => rw [List.getLastD_cons, List.getLastD_cons]
    · rcases foldl_mergeBucket_high_mem cs (seedBucket bstart c) with h | h
      · exact Or.inl (by rw [bucketAgg, h, hseedh])
      · exact Or.inr h
    · rcases foldl_mergeBucket_low_mem cs (seedBucket bstart c) with h | h
      · exact Or.inl (by rw [bucketAgg, h, hseedl])
      · exact Or.inr h
    · rw [bucketAgg, foldl_mergeBucket_volume]
      rfl
    · intro k hk
      rcases List.mem_cons.mp hk with rfl | hk'
      · exact ⟨by rw [bucketAgg, ← hseedh]; exact hub,
          by rw [bucketAgg, ← hseedl]; exact hlb⟩
      · exact ⟨hubs k hk', hlbs k hk'⟩

/-- Concrete 1-hour candles for the C4/C5 witnesses (one full 4-hour
batch, quantised as `format_kline` output always is). -/
def hourWitness : List Candle :=
  [⟨0, 1, 4, 1, 2, 10⟩, ⟨3600, 2, 5, 2, 3, 20⟩,
   ⟨7200, 3, 6, 1, 4, 30⟩, ⟨10800, 4, 7, 3, 5, 40⟩]

/-- Concrete daily candles for the C4/C5 witnesses: Monday and Tuesday,
1970-01-05 and 1970-01-06 (UTC), one full bucket of the same week. -/
def dailyWitness : List Candle :=
  [⟨86400 * 4, 1, 4, 0, 2, 5⟩, ⟨86400 * 5, 2, 6, 1, 3, 7⟩]

theorem hourWitness_wf : ∀ k ∈ hourWitness, WellFormedCandle k := by
  intro k hk
  have hk4 : k = (⟨0, 1, 4, 1, 2, 10⟩ : Candle) ∨ k = (⟨3600, 2, 5, 2, 3, 20⟩ : Candle) ∨
      k = (⟨7200, 3, 6, 1, 4, 30⟩ : Candle) ∨ k = (⟨10800, 4, 7, 3, 5, 40⟩ : Candle) := by
    simpa [hourWitness] using hk
  rcases hk4 with rfl | rfl | rfl | rfl <;>
    exact ⟨decQ_of_den_one rfl 4, decQ_of_den_one rfl 4, decQ_of_den_one rfl 4,
      decQ_of_den_one rfl 4, decQ_of_den_one rfl 2⟩

theorem fetch4h_hourWitness_eq :
    fetch_and_aggregate_4h hourWitness 10 = [⟨0, 1, 7, 1, 5, 100⟩] := by
  have heq : agg4Candle ⟨0, 1, 4, 1, 2, 10⟩ ⟨3600, 2, 5, 2, 3, 20⟩
      ⟨7200, 3, 6, 1, 4, 30⟩ ⟨10800, 4, 7, 3, 5, 40⟩ = ⟨0, 1, 7, 1, 5, 100⟩ := by
    rw [agg4Candle_eq_of_wellFormed (hourWitness_wf _ (by simp [hourWitness]))
      (hourWitness_wf _ (by simp [hourWitness])) (hourWitness_wf _ (by simp [hourWitness]))
      (hourWitness_wf _ (by simp [hourWitness]))]
    congr 1
    norm_num [max_def, min_def]
  simp only [fetch_and_aggregate_4h, hourWitness, aggregate4h, heq]
  norm_num
  decide

theorem weekly_dailyWitness_eq :
    aggregate_to_weekly weekKeyUTC weekStartUTC dailyWitness = [⟨86400 * 4, 1, 6, 0, 3, 12⟩] := by
  have hif : ¬ (weekKeyUTC (86400 * 5) ≠ weekKeyUTC (86400 * 4)) := by decide
  have hmerge : mergeBucket (seedBucket weekStartUTC ⟨86400 * 4, 1, 4, 0, 2, 5⟩)
      ⟨86400 * 5, 2, 6, 1, 3, 7⟩ = ⟨86400 * 4, 1, 6, 0, 3, 12⟩ := by
    simp only [mergeBucket, seedBucket]
    congr 1
    norm_num [max_def, min_def, weekStartUTC, weekdayUTC]
  simp only [dailyWitness, aggregate_to_weekly, weeklyGo, hif, if_neg, ite_false, hmerge]
  norm_num

/-- C4 witness: both halves of the theorem applied to concrete inputs. -/
theorem claim_C4_witness :
    (∃ c0 c1 c2 c3,
      (∃ s t, s ++ ([c0, c1, c2, c3] ++ t) = hourWitness) ∧
      (⟨0, 1, 7, 1, 5, 100⟩ : Candle).time = c0.time ∧
      (⟨0, 1, 7, 1, 5, 100⟩ : Candle).open_price = c0.open_price ∧
      (⟨0, 1, 7, 1, 5, 100⟩ : Candle).close = c3.close ∧
      (⟨0, 1, 7, 1, 5, 100⟩ : Candle).high =
        max (max (max c0.high c1.high) c2.high) c3.high ∧
      (⟨0, 1, 7, 1, 5, 100⟩ : Candle).low =
        min (min (min c0.low c1.low) c2.low) c3.low ∧
      (⟨0, 1, 7, 1, 5, 100⟩ : Candle).volume =
        c0.volume + c1.volume + c2.volume + c3.volume ∧
      (∀ k ∈ [c0, c1, c2, c3],
        k.high ≤ (⟨0, 1, 7, 1, 5, 100⟩ : Candle).high ∧
        (⟨0, 1, 7, 1, 5, 100⟩ : Candle).low ≤ k.low)) ∧
    (∃ c cs,
      (∃ s t, s ++ ((c :: cs) ++ t) = dailyWitness) ∧
      (∀ k ∈ cs, weekKeyUTC k.time = weekKeyUTC c.time) ∧
      (⟨86400 * 4, 1, 6, 0, 3, 12⟩ : Candle).time = weekStartUTC c.time ∧
      (⟨86400 * 4, 1, 6, 0, 3, 12⟩ : Candle).open_price = c.open_price ∧
      (⟨86400 * 4, 1, 6, 0, 3, 12⟩ : Candle).close = (cs.getLastD c).close ∧
      ((⟨86400 * 4, 1, 6, 0, 3, 12⟩ : Candle).high = c.high ∨
        (⟨86400 * 4, 1, 6, 0, 3, 12⟩ : Candle).high ∈ cs.map Candle.high) ∧
      ((⟨86400 * 4, 1, 6, 0, 3, 12⟩ : Candle).low = c.low ∨
        (⟨86400 * 4, 1, 6, 0, 3, 12⟩ : Candle).low ∈ cs.map Candle.low) ∧
      (⟨86400 * 4, 1, 6, 0, 3, 12⟩ : Candle).volume =
        c.volume + (cs.map Candle.volume).sum ∧
      (∀ k ∈ c :: cs,
        k.high ≤ (⟨86400 * 4, 1, 6, 0, 3, 12⟩ : Candle).high ∧
        (⟨86400 * 4, 1, 6, 0, 3, 12⟩ : Candle).low ≤ k.low)) :=
  ⟨claim_C4.1 hourWitness 10 hourWitness_wf ⟨0, 1, 7, 1, 5, 100⟩
      (by rw [fetch4h_hourWitness_eq]; exact List.mem_singleton.mpr rfl),
    claim_C4.2 weekKeyUTC weekStartUTC dailyWitness ⟨86400 * 4, 1, 6, 0, 3, 12⟩
      (by rw [weekly_dailyWitness_eq]; exact List.mem_singleton.mpr rfl)⟩

theorem aggregate4h_length : ∀ l : List Candle,
    (aggregate4h l).length = l.length / 4
  | _ :: _ :: _ :: _ :: rest => by
    rw [aggregate4h]
    simp only [List.length_cons]
    rw [aggregate4h_length rest]
    omega
  | [] => rfl
  | [_] => by simp [aggregate4h]
  | [_, _] => by simp [aggregate4h]
  | [_, _, _] => by simp [aggregate4h]

theorem weeklyGo_ne_nil (key bstart : Int → Int) :
    ∀ (rest : List Candle) (cw : Int) (wd : Candle) (out : List Candle),
      weeklyGo key bstart cw wd out rest ≠ [] := by
  intro rest
  induction rest with
  | nil => intro cw wd out; rw [weeklyGo]; simp
  | cons k rest ih =>
    intro cw wd out
    rw [weeklyGo]
    split
    · exact ih _ _ _
    · exact ih _ _ _

/-- C5, amended.  The 4-hour aggregation discards a partial trailing batch
(the output has exactly `⌊n/4⌋` candles for `n` source candles), but the
weekly/monthly aggregation appends its final bucket unconditionally, so an
incomplete trailing week or month IS emitted: any nonempty daily input
produces a nonempty aggregated output, however few days its last
(or only) bucket contains. -/
theorem claim_C5_amended :
    (∀ l : List Candle, (aggregate4h l).length = l.length / 4) ∧
    (∀ (key bstart : Int → Int) (daily : List Candle), daily ≠ [] →
      aggregate_to_weekly key bstart daily ≠ []) := by
  refine ⟨aggregate4h_length, ?_⟩
  intro key bstart daily hne
  match daily with
  | [] => exact absurd rfl hne
  | k :: rest =>
    rw [aggregate_to_weekly]
    exact weeklyGo_ne_nil key bstart rest _ _ _

/-- A single daily candle on Wednesday 1970-01-07 (UTC): its week bucket
contains one day, far fewer than a full trading week. -/
def cexWednesday : Candle := ⟨86400 * 6, 3, 4, 2, 3, 10⟩

/-- C5 counterexample.  The weekly aggregation of a single mid-week daily
candle — an incomplete trailing week if there ever was one — emits that
partial bucket instead of discarding it: the claimed output is `[]`, the
code produces one weekly candle (timestamped at the week's Monday,
1970-01-05). -/
theorem claim_C5_counterexample :
    aggregate_to_weekly weekKeyUTC weekStartUTC [cexWednesday] =
      [⟨86400 * 4, 3, 4, 2, 3, 10⟩] := by
  decide

/-- C5 witness: the amended theorem applied to concrete inputs. -/
theorem claim_C5_witness :
    (aggregate4h hourWitness).length = hourWitness.length / 4 ∧
    aggregate_to_weekly weekKeyUTC weekStartUTC dailyWitness ≠ [] :=
  ⟨claim_C5_amended.1 hourWitness,
    claim_C5_amended.2 weekKeyUTC weekStartUTC dailyWitness (by decide)⟩

/-! ### `KlineService` (C1, C6)

`KlineService.get_kline` consults the TTL cache only when `before_time` is
falsy (`None` or `0`), fetches through `DataSourceFactory.get_kline`
(which never raises: it catches everything and returns `[]`), and caches a
non-empty result — again only when `before_time` is falsy.  The cache and
the upstream fetch are external: they are passed in as arguments, and the
outcome records which cache keys were read and which `(key, value, ttl)`
triples were written, so that the cache behaviour can be stated.

`KlineService.get_realtime_price` reads the realtime cache unless
`force_refresh` is set, then walks the ladder: ticker (if its `last` is
positive), two most recent 1-minute candles (if the list is non-empty —
the price derived from them is NOT required to be positive), two most
recent daily candles (same), each successful step writing the result back
with TTL 30 / 30 / 300 seconds; if all fail it returns the zero result
tagged `source="unknown"` and writes nothing. -/

/-- The ticker shape used by `get_realtime_price`
(`ticker.get('last', 0)` etc.: absent fields default to 0, which this
structure's fields already carry). -/
structure Ticker where
  last : ℚ
  change : ℚ
  changePercent : ℚ
  high : ℚ
  low : ℚ
  open_price : ℚ
  previousClose : ℚ
deriving DecidableEq, Repr

/-- The realtime-price result dict. -/
structure PriceResult where
  price : ℚ
  change : ℚ
  changePercent : ℚ
  high : ℚ
  low : ℚ
  open_price : ℚ
  previousClose : ℚ
  source : String
deriving DecidableEq, Repr

/-- The all-zero result returned when every ladder step fails. -/
def unknownResult : PriceResult := ⟨0, 0, 0, 0, 0, 0, 0, "unknown"⟩

/-- The result built from a successful ticker step. -/
def tickerResult (t : Ticker) : PriceResult :=
  ⟨t.last, t.change, t.changePercent, t.high, t.low, t.open_price,
    t.previousClose, "ticker"⟩

/-- `klines[-1]` and (when present) `klines[-2]`. -/
def lastTwo (l : List Candle) : Option (Candle × Option Candle) :=
  match l.reverse with
  | [] => none
  | [a] => some (a, none)
  | a :: b :: _ => some (a, some b)

/-- The result derived from the most recent candles:
`prev_close = klines[-2]['close'] if len(klines) > 1 else latest.get('open', 0)`,
`change = round(current - prev_close, 4) if prev_close else 0`,
`change_pct = round(change / prev_close * 100, 2) if prev_close and
prev_close > 0 else 0`. -/
def klineResult (latest : Candle) (prev : Option Candle) (src : String) : PriceResult :=
  let prev_close : ℚ := match prev with
    | some p => p.close
    | none => latest.open_price
  let current_price := latest.close
  let change : ℚ := if prev_close = 0 then 0 else pyRound 4 (current_price - prev_close)
  let change_pct : ℚ := if 0 < prev_close then pyRound 2 (change / prev_close * 100) else 0
  ⟨current_price, change, change_pct, latest.high, latest.low, latest.open_price,
    prev_close, src⟩

/-- What the external world returns to one `get_realtime_price` call:
the ticker (`none` models both an exception inside the ticker block and a
falsy ticker dict, which behave identically here), and the two candle
fetches (`none` models an exception inside that block; `DataSourceFactory`
itself converts failures to `[]`, which is the `some []` case). -/
structure RtEnv where
  ticker : Option Ticker
  klines1m : Option (List Candle)
  klines1d : Option (List Candle)
deriving Repr

/-- Daily-candle fallback step of the ladder (the last `try` block). -/
def rtLadder1d (env : RtEnv) : PriceResult × List (PriceResult × ℕ) :=
  match env.klines1d with
  | some l =>
    match lastTwo l with
    | some (latest, prev) =>
      (klineResult latest prev "kline_1d", [(klineResult latest prev "kline_1d", 300)])
    | none => (unknownResult, [])
  | none => (unknownResult, [])

/-- 1-minute-candle step of the ladder (falls through to the daily step). -/
def rtLadder1m (env : RtEnv) : PriceResult × List (PriceResult × ℕ) :=
  match env.klines1m with
  | some l =>
    match lastTwo l with
    | some (latest, prev) =>
      (klineResult latest prev "kline_1m", [(klineResult latest prev "kline_1m", 30)])
    | none => rtLadder1d env
  | none => rtLadder1d env

/-- The full source ladder of `get_realtime_price`, after the cache check:
ticker (gated on `last > 0`), then 1-minute candles, then daily candles.
Alongside the result it returns the cache writes (value, TTL) performed. -/
def rtLadder (env : RtEnv) : PriceResult × List (PriceResult × ℕ) :=
  match env.ticker with
  | some t =>
    if 0 < t.last then (tickerResult t, [(tickerResult t, 30)])
    else rtLadder1m env
  | none => rtLadder1m env

/-- Outcome of one `get_realtime_price` call: the result, whether the
realtime cache was consulted, and the cache writes performed. -/
structure RtOutcome where
  result : PriceResult
  cacheRead : Bool
  cacheWrites : List (PriceResult × ℕ)
deriving Repr

/-- `KlineService.get_realtime_price`, with the cached value (if any)
under this call's key and the external world passed in explicitly. -/
def get_realtime_price (cached : Option PriceResult) (force_refresh : Bool)
    (env : RtEnv) : RtOutcome :=
  if force_refresh then
    let out := rtLadder env
    ⟨out.1, false, out.2⟩
  else
    match cached with
    | some r => ⟨r, true, []⟩
    | none =>
      let out := rtLadder env
      ⟨out.1, true, out.2⟩

/-- Cache key of a candle query
(`f"kline:{market}:{symbol}:{timeframe}:{limit}"`). -/
def kline_cache_key (market symbol timeframe : String) (limit : ℕ) : String :=
  "kline:" ++ market ++ ":" ++ symbol ++ ":" ++ timeframe ++ ":" ++ toString limit

/-- Outcome of one `get_kline` call: the candles, the cache keys read and
the `(key, value, ttl)` cache writes. -/
structure KlineOutcome where
  result : List Candle
  cacheReads : List String
  cacheWrites : List (String × List Candle × ℕ)
deriving Repr

/-- `KlineService.get_kline`.  `cacheLookup` is the cache state, `ttlOf`
the TTL table `CacheConfig.KLINE_CACHE_TTL.get(timeframe, 300)` (its
values are irrelevant to the claims), `fetched` what
`DataSourceFactory.get_kline` returns (it never raises).  A cached empty
list is falsy (`if cached:`), so it does not count as a hit. -/
def get_kline (cacheLookup : String → Option (List Candle)) (ttlOf : String → ℕ)
    (fetched : List Candle) (market symbol timeframe : String) (limit : ℕ)
    (before_time : Option Int) : KlineOutcome :=
  if before_time = none ∨ before_time = some 0 then
    let key := kline_cache_key market symbol timeframe limit
    match cacheLookup key with
    | some (c :: cs) => ⟨c :: cs, [key], []⟩
    | _ =>
      if fetched = [] then ⟨fetched, [key], []⟩
      else ⟨fetched, [key], [(key, fetched, ttlOf timeframe)]⟩
  else ⟨fetched, [], []⟩

/-- The ticker step yields nothing: no ticker, or a non-positive `last`. -/
def tickerStepFails (env : RtEnv) : Prop :=
  ∀ t, env.ticker = some t → t.last ≤ 0

/-- The 1-minute step yields nothing: exception or empty candle list. -/
def m1StepFails (env : RtEnv) : Prop :=
  ∀ l, env.klines1m = some l → l = []

/-- The daily step yields nothing: exception or empty candle list. -/
def d1StepFails (env : RtEnv) : Prop :=
  ∀ l, env.klines1d = some l → l = []

theorem lastTwo_eq_none {l : List Candle} (h : l = []) : lastTwo l = none := by
  subst h; rfl

theorem get_realtime_price_miss (env : RtEnv) :
    get_realtime_price none false env = ⟨(rtLadder env).1, true, (rtLadder env).2⟩ := rfl

theorem rtLadder_of_tickerFails {env : RtEnv} (h : tickerStepFails env) :
    rtLadder env = rtLadder1m env := by
  unfold rtLadder
  cases henv : env.ticker with
  | none => rfl
  | some t =>
    dsimp only
    rw [if_neg (not_lt.mpr (h t henv))]

theorem rtLadder1m_of_fails {env : RtEnv} (h : m1StepFails env) :
    rtLadder1m env = rtLadder1d env := by
  unfold rtLadder1m
  cases henv : env.klines1m with
  | none => rfl
  | some l =>
    dsimp only
    rw [lastTwo_eq_none (h l henv)]

theorem rtLadder1d_of_fails {env : RtEnv} (h : d1StepFails env) :
    rtLadder1d env = (unknownResult, []) := by
  unfold rtLadder1d
  cases henv : env.klines1d with
  | none => rfl
  | some l =>
    dsimp only
    rw [lastTwo_eq_none (h l henv)]

/-- C1, amended.  On a cache miss, `get_realtime_price` walks the ladder
ticker → 1-minute candles → daily candles and falls back to the all-zero
`source="unknown"` result, with cache TTLs 30s / 30s / 300s — but only the
ticker step is gated on a positive price (`ticker['last'] > 0`): the two
candle steps are used whenever the fetched candle list is non-empty, even
if the derived price is `0`.  The derivation from the candles is
`price = latest.close`, `previousClose` = the prior candle's close (or the
latest candle's open when only one candle exists), `change =
round(price - previousClose, 4)` (0 when `previousClose` is 0) and
`changePercent = round(change / previousClose * 100, 2)` (0 unless
`previousClose > 0`). -/
theorem claim_C1_amended (env : RtEnv) :
    (∀ t, env.ticker = some t → 0 < t.last →
      get_realtime_price none false env =
        ⟨tickerResult t, true, [(tickerResult t, 30)]⟩) ∧
    (tickerStepFails env →
      ∀ l latest prev, env.klines1m = some l → lastTwo l = some (latest, prev) →
        get_realtime_price none false env =
          ⟨klineResult latest prev "kline_1m", true,
            [(klineResult latest prev "kline_1m", 30)]⟩) ∧
    (tickerStepFails env → m1StepFails env →
      ∀ l latest prev, env.klines1d = some l → lastTwo l = some (latest, prev) →
        get_realtime_price none false env =
          ⟨klineResult latest prev "kline_1d", true,
            [(klineResult latest prev "kline_1d", 300)]⟩) ∧
    (tickerStepFails env → m1StepFails env → d1StepFails env →
      get_realtime_price none false env = ⟨unknownResult, true, []⟩) ∧
    (∀ latest prev src,
      (klineResult latest prev src).price = latest.close ∧
      (∀ p, prev = some p → (klineResult latest prev src).previousClose = p.close) ∧
      (prev = none → (klineResult latest prev src).previousClose = latest.open_price) ∧
      (klineResult latest prev src).high = latest.high ∧
      (klineResult latest prev src).low = latest.low ∧
      (klineResult latest prev src).open_price = latest.open_price ∧
      (klineResult latest prev src).source = src ∧
      ((klineResult latest prev src).previousClose ≠ 0 →
        (klineResult latest prev src).change =
          pyRound 4 (latest.close - (klineResult latest prev src).previousClose)) ∧
      ((klineResult latest prev src).previousClose = 0 →
        (klineResult latest prev src).change = 0) ∧
      (0 < (klineResult latest prev src).previousClose →
        (klineResult latest prev src).changePercent =
          pyRound 2 ((klineResult latest prev src).change /
            (klineResult latest prev src).previousClose * 100)) ∧
      ((klineResult latest prev src).previousClose ≤ 0 →
        (klineResult latest prev src).changePercent = 0)) := by
  refine ⟨?_, ?_, ?_, ?_, ?_⟩
  · intro t ht hlast
    rw [get_realtime_price_miss]
    unfold rtLadder
    rw [ht]
    dsimp only
    rw [if_pos hlast]
  · intro htf l latest prev hl hlt
    rw [get_realtime_price_miss, rtLadder_of_tickerFails htf]
    unfold rtLadder1m
    rw [hl]
    dsimp only
    rw [hlt]
  · intro htf hmf l latest prev hl hlt
    rw [get_realtime_price_miss, rtLadder_of_tickerFails htf,
      rtLadder1m_of_fails hmf]
    unfold rtLadder1d
    rw [hl]
    dsimp only
    rw [hlt]
  · intro htf hmf hdf
    rw [get_realtime_price_miss, rtLadder_of_tickerFails htf,
      rtLadder1m_of_fails hmf, rtLadder1d_of_fails hdf]
  · intro latest prev src
    cases prev with
    | none =>
      dsimp only [klineResult]
      refine ⟨rfl, ?_, ?_, rfl, rfl, rfl, rfl, ?_, ?_, ?_, ?_⟩
      · intro p hp; exact Option.noConfusion hp
      · intro _; rfl
      · intro h; rw [if_neg h]
      · intro h; rw [if_pos h]
      · intro h; rw [if_pos h]
      · intro h; rw [if_neg (not_lt.mpr h)]
    | some p =>
      dsimp only [klineResult]
      refine ⟨rfl, ?_, ?_, rfl, rfl, rfl, rfl, ?_, ?_, ?_, ?_⟩
      · intro q hq
        have : p = q := by injection hq
        rw [this]
      · intro hp; exact Option.noConfusion hp
      · intro h; rw [if_neg h]
      · intro h; rw [if_pos h]
      · intro h; rw [if_pos h]
      · intro h; rw [if_neg (not_lt.mpr h)]

/-- The environment of the C1 counterexample: the ticker fails, the
1-minute fetch returns a single candle whose close is `0` (open `5`), and
the daily fetch has a perfectly good candle with close `7`. -/
def cexRtEnv : RtEnv :=
  ⟨none, some [⟨60, 5, 9, 1, 0, 2⟩], some [⟨86400, 6, 8, 5, 7, 3⟩]⟩

/-- C1 counterexample.  The 1-minute step is taken as soon as its candle
list is non-empty, with no check that the derived price is positive: here
it returns `price = 0` tagged `source="kline_1m"`, although the claim says
a step only wins with `price > 0` (so the ladder would have had to move on
to the daily step, whose derived price is `7 > 0`, or end at
`source="unknown"`). -/
theorem claim_C1_counterexample :
    (get_realtime_price none false cexRtEnv).result.source = "kline_1m" ∧
    (get_realtime_price none false cexRtEnv).result.price = 0 ∧
    0 < (klineResult ⟨86400, 6, 8, 5, 7, 3⟩ none "kline_1d").price :=
  ⟨rfl, rfl, by show (0 : ℚ) < 7; norm_num⟩

/-- Ticker used by the C1 witness. -/
def witTicker : Ticker := ⟨10, 1, 2, 11, 9, 9, 9⟩

/-- Environment of the C1 witness: a healthy ticker. -/
def witRtEnv : RtEnv := ⟨some witTicker, none, none⟩

/-- C1 witness: the amended theorem applied to a concrete environment. -/
theorem claim_C1_witness :
    get_realtime_price none false witRtEnv =
      ⟨tickerResult witTicker, true, [(tickerResult witTicker, 30)]⟩ :=
  (claim_C1_amended witRtEnv).1 witTicker rfl (by norm_num [witTicker])

theorem rtLadder1d_spec (env : RtEnv) :
    ((rtLadder1d env).2 = [] ∧ (rtLadder1d env).1 = unknownResult) ∨
      ∃ ttl, (rtLadder1d env).2 = [((rtLadder1d env).1, ttl)] := by
  unfold rtLadder1d
  cases env.klines1d with
  | none => exact Or.inl ⟨rfl, rfl⟩
  | some l =>
    dsimp only
    cases lastTwo l with
    | none => exact Or.inl ⟨rfl, rfl⟩
    | some pr => exact Or.inr ⟨300, rfl⟩

theorem rtLadder1m_spec (env : RtEnv) :
    ((rtLadder1m env).2 = [] ∧ (rtLadder1m env).1 = unknownResult) ∨
      ∃ ttl, (rtLadder1m env).2 = [((rtLadder1m env).1, ttl)] := by
  unfold rtLadder1m
  cases env.klines1m with
  | none => exact rtLadder1d_spec env
  | some l =>
    dsimp only
    cases lastTwo l with
    | none => exact rtLadder1d_spec env
    | some pr => exact Or.inr ⟨30, rfl⟩

theorem rtLadder_spec (env : RtEnv) :
    ((rtLadder env).2 = [] ∧ (rtLadder env).1 = unknownResult) ∨
      ∃ ttl, (rtLadder env).2 = [((rtLadder env).1, ttl)] := by
  unfold rtLadder
  cases env.ticker with
  | none => exact rtLadder1m_spec env
  | some t =>
    dsimp only
    by_cases hlast : 0 < t.last
    · rw [if_pos hlast]
      exact Or.inr ⟨30, rfl⟩
    · rw [if_neg hlast]
      exact rtLadder1m_spec env

/-- Candle cached under the C6 counterexample's key. -/
def histCachedCandle : Candle := ⟨7, 3, 3, 3, 3, 3⟩

/-- Candle the upstream fetch would return in the C6 scenarios. -/
def histFetchedCandle : Candle := ⟨8, 4, 4, 4, 4, 4⟩

/-- C6, amended.  A candle query with a nonzero `before_time` neither
reads nor writes the cache; `before_time = 0` is falsy in Python, so such
a query is treated exactly like one without `before_time`.  A query
without `before_time` reads the cache key `(market, symbol, timeframe,
limit)`, returns a non-empty cached value as-is without writing, and on a
cache miss (no entry, or an empty cached list, which is falsy) stores the
fetched candles under that key exactly when they are non-empty.  A
realtime-price call with `force_refresh=true` never consults the cache but
still writes the refreshed value back whenever a ladder source succeeded
(result different from the all-zero `unknown` result). -/
theorem claim_C6_amended :
    (∀ (lookup : String → Option (List Candle)) (ttlOf : String → ℕ)
      (fetched : List Candle) (market symbol timeframe : String) (limit : ℕ)
      (t : Int), t ≠ 0 →
      get_kline lookup ttlOf fetched market symbol timeframe limit (some t) =
        ⟨fetched, [], []⟩) ∧
    (∀ (lookup : String → Option (List Candle)) (ttlOf : String → ℕ)
      (fetched : List Candle) (market symbol timeframe : String) (limit : ℕ),
      (get_kline lookup ttlOf fetched market symbol timeframe limit none).cacheReads =
        [kline_cache_key market symbol timeframe limit] ∧
      (∀ c cs, lookup (kline_cache_key market symbol timeframe limit) = some (c :: cs) →
        get_kline lookup ttlOf fetched market symbol timeframe limit none =
          ⟨c :: cs, [kline_cache_key market symbol timeframe limit], []⟩) ∧
      (lookup (kline_cache_key market symbol timeframe limit) = none ∨
          lookup (kline_cache_key market symbol timeframe limit) = some [] →
        fetched ≠ [] →
        get_kline lookup ttlOf fetched market symbol timeframe limit none =
          ⟨fetched, [kline_cache_key market symbol timeframe limit],
            [(kline_cache_key market symbol timeframe limit, fetched,
              ttlOf timeframe)]⟩)) ∧
    (∀ (cached : Option PriceResult) (env : RtEnv),
      (get_realtime_price cached true env).cacheRead = false) ∧
    (∀ (cached : Option PriceResult) (env : RtEnv),
      (get_realtime_price cached true env).result ≠ unknownResult →
      ∃ ttl, (get_realtime_price cached true env).cacheWrites =
        [((get_realtime_price cached true env).result, ttl)]) := by
  refine ⟨?_, ?_, ?_, ?_⟩
  · intro lookup ttlOf fetched market symbol timeframe limit t ht
    unfold get_kline
    rw [if_neg]
    simp [ht]
  · intro lookup ttlOf fetched market symbol timeframe limit
    refine ⟨?_, ?_, ?_⟩
    · unfold get_kline
      rw [if_pos (Or.inl rfl)]
      dsimp only
      cases lookup (kline_cache_key market symbol timeframe limit) with
      | none =>
        dsimp only
        split <;> rfl
      | some v =>
        cases v with
        | nil =>
          dsimp only
          split <;> rfl
        | cons c cs => rfl
    · intro c cs hlk
      unfold get_kline
      rw [if_pos (Or.inl rfl)]
      dsimp only
      rw [hlk]
    · intro hmiss hfetch
      unfold get_kline
      rw [if_pos (Or.inl rfl)]
      dsimp only
      rcases hmiss with h | h <;>
        · rw [h]
          dsimp only
          rw [if_neg hfetch]
  · intro cached env
    rfl
  · intro cached env hne
    have hget : get_realtime_price cached true env =
        ⟨(rtLadder env).1, false, (rtLadder env).2⟩ := rfl
    rw [hget] at hne ⊢
    rcases rtLadder_spec env with ⟨_, hr⟩ | ⟨ttl, hw⟩
    · exact absurd hr hne
    · exact ⟨ttl, hw⟩

/-- C6 counterexample.  A candle query carrying the explicit
`before_time = 0` is historical by the claim's letter, yet it both reads
the cache (and here hits, returning the cached value instead of the
freshly fetched one): `0` is falsy in Python, so `if not before_time:`
treats the query as non-historical. -/
theorem claim_C6_counterexample :
    (get_kline (fun _ => some [histCachedCandle]) (fun _ => 300) [histFetchedCandle]
      "Crypto" "BTCUSDT" "1m" 2 (some 0)).cacheReads =
        [kline_cache_key "Crypto" "BTCUSDT" "1m" 2] ∧
    (get_kline (fun _ => some [histCachedCandle]) (fun _ => 300) [histFetchedCandle]
      "Crypto" "BTCUSDT" "1m" 2 (some 0)).result = [histCachedCandle] :=
  ⟨rfl, rfl⟩

/-- C6 witness: the amended theorem applied to a concrete historical query
and a concrete force-refresh realtime call. -/
theorem claim_C6_witness :
    get_kline (fun _ => some [histCachedCandle]) (fun _ => 300) [histFetchedCandle]
      "USStock" "AAPL" "1D" 3 (some 99) = ⟨[histFetchedCandle], [], []⟩ ∧
    (get_realtime_price none true witRtEnv).cacheRead = false :=
  ⟨claim_C6_amended.1 (fun _ => some [histCachedCandle]) (fun _ => 300)
      [histFetchedCandle] "USStock" "AAPL" "1D" 3 99 (by decide),
    claim_C6_amended.2.2.1 none witRtEnv⟩

/-! ### Alert eligibility and re-triggering (C2, C10)

The eligibility computation of `_check_position_alerts`
(portfolio_monitor.py):

```python
can_trigger = not is_triggered
if is_triggered and repeat_interval > 0 and last_triggered_at:
    elapsed_seconds = (now - last_triggered_at).total_seconds()
    if elapsed_seconds >= repeat_interval:
        can_trigger = True
```

Timestamps and elapsed seconds are rationals (`total_seconds()` is a
float); `last_triggered_at` is a datetime or SQL NULL, NULL being falsy.
On a trigger the pass persists `is_triggered = 1,
last_triggered_at = NOW()`, giving the one-pass state transition
`alertPass`; the price fetch and the threshold comparison combine into one
Boolean `cond` (eligibility is decided before the price is even
fetched). -/

/-- Eligibility of one alert in one pass of `_check_position_alerts`. -/
def can_trigger (is_triggered : Bool) (repeat_interval : Int)
    (last_triggered_at : Option ℚ) (now : ℚ) : Bool :=
  let base := !is_triggered
  if is_triggered ∧ 0 < repeat_interval then
    match last_triggered_at with
    | some t => if (repeat_interval : ℚ) ≤ now - t then true else base
    | none => base
  else base

/-- The trigger-relevant state of one alert row. -/
structure AlertState where
  is_triggered : Bool
  last_triggered_at : Option ℚ
deriving DecidableEq, Repr

/-- One evaluation pass over one alert: it fires iff it is eligible and
its condition (positive price and threshold comparison) holds, in which
case `is_triggered = 1, last_triggered_at = NOW()` is persisted. -/
def alertPass (repeat_interval : Int) (s : AlertState) (cond : Bool) (now : ℚ) :
    AlertState × Bool :=
  if can_trigger s.is_triggered repeat_interval s.last_triggered_at now && cond then
    (⟨true, some now⟩, true)
  else (s, false)

/-- How often an alert fires over a sequence of `(condition, now)` passes. -/
def fireCount (repeat_interval : Int) (s : AlertState) : List (Bool × ℚ) → ℕ
  | [] => 0
  | (c, n) :: rest =>
    (if (alertPass repeat_interval s c n).2 then 1 else 0) +
      fireCount repeat_interval (alertPass repeat_interval s c n).1 rest

theorem can_trigger_none_last (r : Int) (now : ℚ) :
    can_trigger true r none now = false := by
  unfold can_trigger
  by_cases h : (0 : Int) < r
  · rw [if_pos ⟨rfl, h⟩]
    rfl
  · rw [if_neg fun hc => h hc.2]
    rfl

theorem can_trigger_zero (l : Option ℚ) (now : ℚ) :
    can_trigger true 0 l now = false := by
  unfold can_trigger
  rw [if_neg fun hc => lt_irrefl 0 hc.2]
  rfl

theorem fireCount_none_last (r : Int) :
    ∀ (passes : List (Bool × ℚ)), fireCount r ⟨true, none⟩ passes = 0
  | [] => rfl
  | (c, n) :: rest => by
    rw [fireCount]
    have hpass : alertPass r ⟨true, none⟩ c n = (⟨true, none⟩, false) := by
      unfold alertPass
      rw [can_trigger_none_last, Bool.false_and, if_neg (by simp)]
    rw [hpass]
    simpa using fireCount_none_last r rest

theorem fireCount_zero_triggered :
    ∀ (passes : List (Bool × ℚ)) (l : Option ℚ), fireCount 0 ⟨true, l⟩ passes = 0
  | [], _ => rfl
  | (c, n) :: rest, l => by
    rw [fireCount]
    have hpass : alertPass 0 ⟨true, l⟩ c n = (⟨true, l⟩, false) := by
      unfold alertPass
      rw [can_trigger_zero, Bool.false_and, if_neg (by simp)]
    rw [hpass]
    simpa using fireCount_zero_triggered rest l

theorem fireCount_zero_le_one :
    ∀ (passes : List (Bool × ℚ)) (s : AlertState), fireCount 0 s passes ≤ 1
  | [], _ => Nat.zero_le 1
  | (c, n) :: rest, ⟨true, l⟩ => by
    rw [fireCount]
    have hpass : alertPass 0 ⟨true, l⟩ c n = (⟨true, l⟩, false) := by
      unfold alertPass
      rw [can_trigger_zero, Bool.false_and, if_neg (by simp)]
    rw [hpass]
    simp [fireCount_zero_triggered rest l]
  | (c, n) :: rest, ⟨false, l⟩ => by
    rw [fireCount]
    unfold alertPass
    have hct : can_trigger false 0 l n = true := rfl
    rw [hct, Bool.true_and]
    cases c with
    | true =>
      rw [if_pos rfl]
      simp [fireCount_zero_triggered rest (some n)]
    | false =>
      rw [if_neg (by simp)]
      simpa using fireCount_zero_le_one rest ⟨false, l⟩

/-- C2.  An already-triggered alert (with a recorded `last_triggered_at`)
is eligible to trigger again exactly when `repeat_interval > 0` and the
elapsed time is at least `repeat_interval`; an alert with
`repeat_interval = 0` fires at most once over any sequence of evaluation
passes, whatever its initial state and however often its condition is
true; and with `repeat_interval = 600`, a triggered alert is not eligible
599 seconds after its last trigger but is 601 seconds after. -/
theorem claim_C2 :
    (∀ (r : Int) (t now : ℚ),
      can_trigger true r (some t) now = decide (0 < r ∧ (r : ℚ) ≤ now - t)) ∧
    (∀ (s : AlertState) (passes : List (Bool × ℚ)), fireCount 0 s passes ≤ 1) ∧
    (∀ t : ℚ, can_trigger true 600 (some t) (t + 599) = false) ∧
    (∀ t : ℚ, can_trigger true 600 (some t) (t + 601) = true) := by
  have hchar : ∀ (r : Int) (t now : ℚ),
      can_trigger true r (some t) now = decide (0 < r ∧ (r : ℚ) ≤ now - t) := by
    intro r t now
    unfold can_trigger
    by_cases hr : (0 : Int) < r
    · rw [if_pos ⟨rfl, hr⟩]
      dsimp only
      by_cases he : (r : ℚ) ≤ now - t
      · rw [if_pos he]
        simp [hr, he]
      · rw [if_neg he]
        simp [he]
    · rw [if_neg fun hc => hr hc.2]
      simp [hr]
  refine ⟨hchar, fun s passes => fireCount_zero_le_one passes s, ?_, ?_⟩
  · intro t
    rw [hchar]
    simp only [decide_eq_false_iff_not]
    rintro ⟨-, h2⟩
    rw [show t + 599 - t = (599 : ℚ) by ring] at h2
    push_cast at h2
    norm_num at h2
  · intro t
    rw [hchar]
    simp only [decide_eq_true_eq]
    refine ⟨by decide, ?_⟩
    rw [show t + 601 - t = (601 : ℚ) by ring]
    push_cast
    norm_num

/-- C10.  An alert row with `is_triggered = true` and a NULL
`last_triggered_at` can never become eligible again, whatever its
`repeat_interval`: the eligibility check additionally requires a truthy
(non-NULL) `last_triggered_at`, so such an alert never fires again over
any sequence of passes — exactly the behaviour of `repeat_interval = 0`. -/
theorem claim_C10 :
    (∀ (r : Int) (now : ℚ), can_trigger true r none now = false) ∧
    (∀ (l : Option ℚ) (now : ℚ), can_trigger true 0 l now = false) ∧
    (∀ (r : Int) (passes : List (Bool × ℚ)), fireCount r ⟨true, none⟩ passes = 0) ∧
    (∀ (passes : List (Bool × ℚ)) (l : Option ℚ), fireCount 0 ⟨true, l⟩ passes = 0) :=
  ⟨can_trigger_none_last, can_trigger_zero, fireCount_none_last, fireCount_zero_triggered⟩

/-! ### `SignalNotifier.notify_signal` (C7)

The channel loop of `notify_signal` (signal_notifier.py lines 168-243):
each entry of `channels` is normalised (`(ch or "").strip().lower()`),
empty names are skipped, and for each remaining name one outcome
`{ok, error}` is computed — inside a `try` whose `except` converts any
exception into `(False, str(e))` — and assigned into the `results` dict.
Unknown names yield `(False, "unsupported_channel:<name>")` from the
`else` arm.  The per-channel transports (`_notify_browser`,
`_notify_webhook`, …) are external HTTP/SMTP calls, modelled by `deliver`
(an `Except.error` models a raised exception).  `str.strip()` and
`str.lower()` are modelled for ASCII strings, which channel names are. -/

/-- The ASCII whitespace removed by Python's `str.strip()`. -/
def isSpaceChar (c : Char) : Bool :=
  c = ' ' || c = '\t' || c = '\n' || c = '\r' || c = '\x0b' || c = '\x0c'

/-- Python `str.strip()` on ASCII strings. -/
def pyStrip (s : String) : String :=
  ⟨((s.data.dropWhile isSpaceChar).reverse.dropWhile isSpaceChar).reverse⟩

/-- Lower-casing of one ASCII character. -/
def pyLowerChar (c : Char) : Char :=
  if 'A' ≤ c ∧ c ≤ 'Z' then Char.ofNat (c.toNat + 32) else c

/-- Python `str.lower()` on ASCII strings. -/
def pyLower (s : String) : String := ⟨s.data.map pyLowerChar⟩

/-- `(ch or "").strip().lower()`. -/
def pyNorm (s : String) : String := pyLower (pyStrip s)

/-- The channel names the dispatch loop has an arm for. -/
def dispatchChannels : List String :=
  ["browser", "webhook", "discord", "telegram", "email", "phone"]

/-- Outcome recorded for one normalised channel name `c`: the arm's
delivery through the external transport, with a raised exception caught
into `(False, str(e))`, or the `unsupported_channel` failure for names
without an arm. -/
def channelOutcome (deliver : String → Except String (Bool × String))
    (c : String) : Bool × String :=
  if c ∈ dispatchChannels then
    match deliver c with
    | Except.ok out => out
    | Except.error e => (false, e)
  else (false, "unsupported_channel:" ++ c)

/-- Python dict assignment `results[c] = v`: replaces in place or appends. -/
def dictInsert {α : Type} : List (String × α) → String → α → List (String × α)
  | [], k, v => [(k, v)]
  | (k', v') :: rest, k, v =>
    if k' = k then (k', v) :: rest else (k', v') :: dictInsert rest k v

/-- One iteration of the channel loop. -/
def notifyStep (deliver : String → Except String (Bool × String))
    (results : List (String × (Bool × String))) (ch : String) :
    List (String × (Bool × String)) :=
  let c := pyNorm ch
  if c = "" then results
  else dictInsert results c (channelOutcome deliver c)

/-- `SignalNotifier.notify_signal`, reduced to its channel loop: an empty
channel list defaults to `["browser"]`, then every channel is attempted
independently and its outcome recorded. -/
def notify_signal (deliver : String → Except String (Bool × String))
    (channels : List String) : List (String × (Bool × String)) :=
  (if channels = [] then ["browser"] else channels).foldl (notifyStep deliver) []

theorem dictInsert_lookup_eq {α : Type} :
    ∀ (m : List (String × α)) (k : String) (v : α),
      (dictInsert m k v).lookup k = some v
  | [], k, v => by simp [dictInsert, List.lookup]
  | (k', v') :: rest, k, v => by
    rw [dictInsert]
    by_cases h : k' = k
    · rw [if_pos h]
      subst h
      simp [List.lookup]
    · rw [if_neg h]
      have hne : (k == k') = false := by
        simp only [beq_eq_false_iff_ne]
        exact fun hk => h hk.symm
      simp only [List.lookup, hne]
      exact dictInsert_lookup_eq rest k v

theorem dictInsert_lookup_ne {α : Type} :
    ∀ (m : List (String × α)) (k k' : String), k' ≠ k → ∀ (v : α),
      (dictInsert m k v).lookup k' = m.lookup k'
  | [], k, k', hne, v => by
    simp only [dictInsert, List.lookup]
    rw [show (k' == k) = false by simpa using hne]
  | (k0, v0) :: rest, k, k', hne, v => by
    rw [dictInsert]
    by_cases h : k0 = k
    · rw [if_pos h]
      subst h
      simp only [List.lookup]
      rw [show (k' == k0) = false by simpa using hne]
    · rw [if_neg h]
      simp only [List.lookup]
      cases hbe : (k' == k0) with
      | true => rfl
      | false => exact dictInsert_lookup_ne rest k k' hne v

theorem dictInsert_keys {α : Type} :
    ∀ (m : List (String × α)) (k : String) (v : α),
      (dictInsert m k v).map Prod.fst =
        if k ∈ m.map Prod.fst then m.map Prod.fst else m.map Prod.fst ++ [k]
  | [], k, v => by simp [dictInsert]
  | (k0, v0) :: rest, k, v => by
    rw [dictInsert]
    by_cases h : k0 = k
    · rw [if_pos h]
      subst h
      simp
    · rw [if_neg h]
      simp only [List.map_cons, dictInsert_keys rest k v]
      by_cases hmem : k ∈ rest.map Prod.fst
      · rw [if_pos hmem, if_pos (by simp [hmem])]
      · rw [if_neg hmem, if_neg (by
          simp only [List.map_cons, List.mem_cons]
          rintro (rfl | hrm)
          · exact h rfl
          · exact hmem hrm)]
        simp

theorem dictInsert_keys_nodup {α : Type} (m : List (String × α)) (k : String) (v : α)
    (h : (m.map Prod.fst).Nodup) : ((dictInsert m k v).map Prod.fst).Nodup := by
  rw [dictInsert_keys]
  by_cases hmem : k ∈ m.map Prod.fst
  · rwa [if_pos hmem]
  · rw [if_neg hmem]
    rw [List.nodup_append]
    exact ⟨h, List.nodup_singleton k, by simpa using hmem⟩

theorem notifyLoop_lookup (deliver : String → Except String (Bool × String)) :
    ∀ (channels : List String) (m : List (String × (Bool × String))) (k : String),
      (channels.foldl (notifyStep deliver) m).lookup k =
        if k ≠ "" ∧ k ∈ channels.map pyNorm then some (channelOutcome deliver k)
        else m.lookup k
  | [], m, k => by simp
  | ch :: rest, m, k => by
    rw [List.foldl_cons, notifyLoop_lookup deliver rest (notifyStep deliver m ch) k]
    unfold notifyStep
    dsimp only
    by_cases hk : k = ""
    · have hcond1 : ¬ (k ≠ "" ∧ k ∈ rest.map pyNorm) := fun hcc => hcc.1 hk
      have hcond2 : ¬ (k ≠ "" ∧ k ∈ (ch :: rest).map pyNorm) := fun hcc => hcc.1 hk
      rw [if_neg hcond1, if_neg hcond2]
      by_cases hc : pyNorm ch = ""
      · rw [if_pos hc]
      · rw [if_neg hc]
        exact dictInsert_lookup_ne m (pyNorm ch) k (fun he => hc (he.symm.trans hk)) _
    · by_cases hmem : k ∈ rest.map pyNorm
      · have hcond1 : k ≠ "" ∧ k ∈ rest.map pyNorm := ⟨hk, hmem⟩
        have hcond2 : k ≠ "" ∧ k ∈ (ch :: rest).map pyNorm := ⟨hk, by
          simp only [List.map_cons, List.mem_cons]
          exact Or.inr hmem⟩
        rw [if_pos hcond1, if_pos hcond2]
      · have hcond1 : ¬ (k ≠ "" ∧ k ∈ rest.map pyNorm) := fun hcc => hmem hcc.2
        rw [if_neg hcond1]
        by_cases hkc : k = pyNorm ch
        · have hc : ¬ pyNorm ch = "" := fun h0 => hk (hkc.trans h0)
          have hcond2 : k ≠ "" ∧ k ∈ (ch :: rest).map pyNorm := ⟨hk, by
            simp only [List.map_cons, List.mem_cons]
            exact Or.inl hkc⟩
          rw [if_neg hc, if_pos hcond2, hkc]
          exact dictInsert_lookup_eq m _ _
        · have hcond2 : ¬ (k ≠ "" ∧ k ∈ (ch :: rest).map pyNorm) := by
            rintro ⟨-, hm⟩
            simp only [List.map_cons, List.mem_cons] at hm
            rcases hm with h' | h'
            · exact hkc h'
            · exact hmem h'
          rw [if_neg hcond2]
          by_cases hc : pyNorm ch = ""
          · rw [if_pos hc]
          · rw [if_neg hc]
            exact dictInsert_lookup_ne m (pyNorm ch) k hkc _

theorem notifyLoop_keys_nodup (deliver : String → Except String (Bool × String)) :
    ∀ (channels : List String) (m : List (String × (Bool × String))),
      (m.map Prod.fst).Nodup →
      ((channels.foldl (notifyStep deliver) m).map Prod.fst).Nodup
  | [], m, h => h
  | ch :: rest, m, h => by
    rw [List.foldl_cons]
    refine notifyLoop_keys_nodup deliver rest (notifyStep deliver m ch) ?_
    unfold notifyStep
    by_cases hc : pyNorm ch = ""
    · rwa [if_pos hc]
    · rw [if_neg hc]
      exact dictInsert_keys_nodup m _ _ h

theorem notifyLoop_keys_mem (deliver : String → Except String (Bool × String)) :
    ∀ (channels : List String) (m : List (String × (Bool × String))) (k : String),
      (k ∈ (channels.foldl (notifyStep deliver) m).map Prod.fst ↔
        k ∈ m.map Prod.fst ∨ (k ≠ "" ∧ k ∈ channels.map pyNorm))
  | [], m, k => by simp
  | ch :: rest, m, k => by
    rw [List.foldl_cons, notifyLoop_keys_mem deliver rest (notifyStep deliver m ch) k]
    unfold notifyStep
    dsimp only
    by_cases hc : pyNorm ch = ""
    · rw [if_pos hc]
      constructor
      · rintro (h | h)
        · exact Or.inl h
        · refine Or.inr ⟨h.1, ?_⟩
          simp only [List.map_cons, List.mem_cons]
          exact Or.inr h.2
      · rintro (h | ⟨hne, h⟩)
        · exact Or.inl h
        · simp only [List.map_cons, List.mem_cons] at h
          rcases h with h' | h'
          · exact absurd (h'.trans hc) hne
          · exact Or.inr ⟨hne, h'⟩
    · rw [if_neg hc]
      have hkeys := dictInsert_keys m (pyNorm ch) (channelOutcome deliver (pyNorm ch))
      constructor
      · rintro (h | h)
        · rw [hkeys] at h
          by_cases hmem : pyNorm ch ∈ m.map Prod.fst
          · rw [if_pos hmem] at h
            exact Or.inl h
          · rw [if_neg hmem] at h
            rcases List.mem_append.mp h with h' | h'
            · exact Or.inl h'
            · have hkc : k = pyNorm ch := by simpa using h'
              refine Or.inr ⟨fun h0 => hc (hkc.symm.trans h0), ?_⟩
              simp only [List.map_cons, List.mem_cons]
              exact Or.inl hkc
        · refine Or.inr ⟨h.1, ?_⟩
          simp only [List.map_cons, List.mem_cons]
          exact Or.inr h.2
      · rintro (h | ⟨hne, h⟩)
        · left
          rw [hkeys]
          by_cases hmem : pyNorm ch ∈ m.map Prod.fst
          · rwa [if_pos hmem]
          · rw [if_neg hmem]
            exact List.mem_append.mpr (Or.inl h)
        · simp only [List.map_cons, List.mem_cons] at h
          rcases h with h' | h'
          · left
            rw [hkeys]
            by_cases hmem : pyNorm ch ∈ m.map Prod.fst
            · rw [if_pos hmem, h']
              exact hmem
            · rw [if_neg hmem]
              exact List.mem_append.mpr (Or.inr (by simp [h']))
          · exact Or.inr ⟨hne, h'⟩

theorem channelOutcome_congr {d1 d2 : String → Except String (Bool × String)}
    (k : String) (h : d1 k = d2 k) : channelOutcome d1 k = channelOutcome d2 k := by
  unfold channelOutcome
  rw [h]

/-- C7.  Every channel of the list whose normalised name is non-empty gets
exactly one outcome record in the returned mapping — its own transport's
outcome, with a raised exception converted to `{ok=false, error=str(e)}`
and an unknown name to `{ok=false, error="unsupported_channel:..."}` —
the keys of the mapping are exactly the normalised channel names (no
channel is dropped, nothing else appears, each exactly once), and the
outcome recorded for a channel depends only on that channel's own
delivery, so one channel's failure can never affect another's attempt or
recorded outcome. -/
theorem claim_C7 :
    (∀ (deliver : String → Except String (Bool × String)) (channels : List String)
      (ch : String), ch ∈ channels → pyNorm ch ≠ "" →
      (notify_signal deliver channels).lookup (pyNorm ch) =
        some (channelOutcome deliver (pyNorm ch))) ∧
    (∀ (deliver : String → Except String (Bool × String)) (channels : List String),
      ((notify_signal deliver channels).map Prod.fst).Nodup) ∧
    (∀ (deliver : String → Except String (Bool × String)) (channels : List String)
      (k : String),
      k ∈ (notify_signal deliver channels).map Prod.fst ↔
        (k ≠ "" ∧ k ∈ (if channels = [] then ["browser"] else channels).map pyNorm)) ∧
    (∀ (d1 d2 : String → Except String (Bool × String)) (channels : List String)
      (k : String), d1 k = d2 k →
      (notify_signal d1 channels).lookup k = (notify_signal d2 channels).lookup k) := by
  refine ⟨?_, ?_, ?_, ?_⟩
  · intro deliver channels ch hch hne
    have hnil : channels ≠ [] := by rintro rfl; simp at hch
    unfold notify_signal
    rw [if_neg hnil, notifyLoop_lookup deliver channels [] (pyNorm ch),
      if_pos ⟨hne, List.mem_map_of_mem pyNorm hch⟩]
  · intro deliver channels
    exact notifyLoop_keys_nodup deliver _ [] (by simp)
  · intro deliver channels k
    unfold notify_signal
    rw [notifyLoop_keys_mem deliver _ [] k]
    simp
  · intro d1 d2 channels k h
    unfold notify_signal
    rw [notifyLoop_lookup d1 _ [] k, notifyLoop_lookup d2 _ [] k]
    by_cases hcond : k ≠ "" ∧ k ∈ (if channels = [] then ["browser"] else channels).map pyNorm
    · rw [if_pos hcond, if_pos hcond, channelOutcome_congr k h]
    · rw [if_neg hcond, if_neg hcond]

/-- Transport behaviour of the C7 witness scenario: the webhook URL is
unreachable (the HTTP call raises), telegram delivery succeeds. -/
def scenarioDeliver : String → Except String (Bool × String) :=
  fun c => if c = "webhook" then Except.error "connection refused" else Except.ok (true, "")

/-- C7 witness: the theorem applied to the spec's scenario
`channels = ["webhook", "telegram"]` with the webhook unreachable — the
result records `webhook ↦ ok=false` and `telegram ↦ ok=true`. -/
theorem claim_C7_witness :
    (notify_signal scenarioDeliver ["webhook", "telegram"]).lookup "webhook" =
      some (false, "connection refused") ∧
    (notify_signal scenarioDeliver ["webhook", "telegram"]).lookup "telegram" =
      some (true, "") := by
  have h1 := claim_C7.1 scenarioDeliver ["webhook", "telegram"] "webhook"
    (by simp) (by decide)
  have h2 := claim_C7.1 scenarioDeliver ["webhook", "telegram"] "telegram"
    (by simp) (by decide)
  exact ⟨h1.trans (by rfl), h2.trans (by rfl)⟩

/-! ### `run_single_monitor` (C8)

portfolio_monitor.py `run_single_monitor`: fetch the monitor row (`none`
models the `Monitor not found` early return), load its positions
(`No positions to analyze` early return when empty), run the analysis
(`_run_ai_analysis` catches every exception and returns a
`success: False` dict, so the analysis step itself never raises; an
unsupported `monitor_type` yields an error result as well), and only then
persist `last_run_at = now, next_run_at = now + interval minutes,
run_count = run_count + 1` — whatever the analysis result was. -/

/-- `v or default` for strings (`row.get('monitor_type') or 'ai'`):
`None` and the empty string are falsy. -/
def pyOrStr (o : Option String) (d : String) : String :=
  match o with
  | none => d
  | some s => if s = "" then d else s

/-- `int(config.get('interval_minutes') or 60)`: absent and `0` are falsy
and give 60. -/
def effInterval (i : Option Int) : Int :=
  match i with
  | none => 60
  | some v => if v = 0 then 60 else v

/-- The monitor-row fields `run_single_monitor` uses. -/
structure MonitorRow where
  monitor_type : Option String
  interval_minutes : Option Int
deriving DecidableEq, Repr

/-- A position row; only its presence matters to `run_single_monitor`. -/
structure PositionRow where
  market : String
  symbol : String
deriving DecidableEq, Repr

/-- The schedule state of one monitor
(`last_run_at`, `next_run_at`, `run_count`). -/
structure Sched where
  last_run_at : Option ℚ
  next_run_at : ℚ
  run_count : ℕ
deriving DecidableEq, Repr

/-- What one `run_single_monitor` call reports. -/
inductive RunOutcome where
  | monitorNotFound
  | noPositions
  | unsupportedType (t : String)
  | analysis (ok : Bool)
deriving DecidableEq, Repr

/-- `run_single_monitor`: returns the outcome and the (possibly updated)
schedule row.  `row = none` models the failed row fetch, `analysisOk`
the `success` flag of the analysis result. -/
def run_single_monitor (row : Option MonitorRow) (positions : List PositionRow)
    (analysisOk : Bool) (s : Sched) (now : ℚ) : RunOutcome × Sched :=
  match row with
  | none => (.monitorNotFound, s)
  | some m =>
    if positions = [] then (.noPositions, s)
    else
      let mtype := pyOrStr m.monitor_type "ai"
      let result := if mtype = "ai" then RunOutcome.analysis analysisOk
        else RunOutcome.unsupportedType mtype
      (result, ⟨some now, now + 60 * (effInterval m.interval_minutes : ℚ),
        s.run_count + 1⟩)

/-- C8, amended.  A run that reaches the analysis step — the monitor row
exists and it has positions — advances the schedule unconditionally and
independently of the run's outcome: `last_run_at = now`, `next_run_at =
now + interval`, `run_count + 1`, the same whether the analysis succeeded,
failed, or the monitor type is unsupported.  But the two early returns do
NOT advance the schedule: a missing monitor row or an empty position list
leaves `last_run_at`, `next_run_at` and `run_count` untouched, so such a
monitor stays due and is retried on every scheduler tick. -/
theorem claim_C8_amended :
    (∀ (row : Option MonitorRow) (m : MonitorRow) (positions : List PositionRow)
      (analysisOk : Bool) (s : Sched) (now : ℚ),
      row = some m → positions ≠ [] →
      (run_single_monitor row positions analysisOk s now).2 =
        ⟨some now, now + 60 * (effInterval m.interval_minutes : ℚ),
          s.run_count + 1⟩) ∧
    (∀ (row : Option MonitorRow) (positions : List PositionRow)
      (analysisOk : Bool) (s : Sched) (now : ℚ),
      row = none ∨ positions = [] →
      (run_single_monitor row positions analysisOk s now).2 = s) := by
  constructor
  · intro row m positions analysisOk s now hrow hpos
    subst hrow
    unfold run_single_monitor
    dsimp only
    rw [if_neg hpos]
  · intro row positions analysisOk s now h
    rcases h with h | h
    · subst h
      rfl
    · subst h
      cases row with
      | none => rfl
      | some m =>
        unfold run_single_monitor
        dsimp only
        rw [if_pos rfl]

/-- The monitor row of the C8 counterexample and witness. -/
def cexMonitorRow : MonitorRow := ⟨some "ai", some 30⟩

/-- C8 counterexample.  A run of an existing monitor whose position list
is empty returns the `No positions to analyze` outcome and leaves the
schedule row exactly as it was (`run_count` still 0, `next_run_at` still
0), although the claim says every run advances the schedule
unconditionally; being still due, this monitor is retried on
every scheduler tick. -/
theorem claim_C8_counterexample :
    run_single_monitor (some cexMonitorRow) [] true ⟨none, 0, 0⟩ 1000 =
      (RunOutcome.noPositions, ⟨none, 0, 0⟩) := rfl

/-- C8 witness: the amended theorem applied to a concrete failing run
(`analysisOk = false`) that still advances the schedule, and to a concrete
empty-positions run that does not. -/
theorem claim_C8_witness :
    (run_single_monitor (some cexMonitorRow) [⟨"Crypto", "BTCUSDT"⟩] false
        ⟨none, 0, 3⟩ 500).2 =
      ⟨some 500, 500 + 60 * (effInterval cexMonitorRow.interval_minutes : ℚ), 3 + 1⟩ ∧
    (run_single_monitor (some cexMonitorRow) [] false ⟨none, 0, 3⟩ 500).2 =
      ⟨none, 0, 3⟩ :=
  ⟨claim_C8_amended.1 (some cexMonitorRow) cexMonitorRow [⟨"Crypto", "BTCUSDT"⟩]
      false ⟨none, 0, 3⟩ 500 rfl (by simp),
    claim_C8_amended.2 (some cexMonitorRow) [] false ⟨none, 0, 3⟩ 500 (Or.inr rfl)⟩

/-! ### Alert rule validation (C9)

routes/portfolio.py `add_alert` and `update_alert`.  `add_alert` validates
the (stripped, defaulted) `alert_type` against the four known types, then
resolves market/symbol (optionally from the referenced position row),
requires both non-empty, and rejects a non-positive threshold — but only
for `price_*` alert types (`if threshold <= 0 and
alert_type.startswith('price_')`).  `update_alert` builds a SQL `SET`
list from whichever fields are present in the payload and applies it with
NO validation of any value.  The embedding keeps the fields the claim is
about (`alert_type`, `threshold`, `is_active`, `repeat_interval`); the
remaining columns (`notification_config`, `notes`) are payload-copied
blobs with no validation either and are irrelevant to the claim. -/

/-- The four valid alert types. -/
def valid_types : List String :=
  ["price_above", "price_below", "pnl_above", "pnl_below"]

/-- Python `s.startswith(p)`. -/
def pyStartsWith (s p : String) : Bool := s.data.take p.data.length = p.data

/-- Outcome of `add_alert`'s validation. -/
inductive AddAlertResult where
  | invalidType (t : String)
  | missingMarketSymbol
  | nonPositivePriceThreshold
  | accepted (alert_type : String) (threshold : ℚ) (market symbol : String)
deriving DecidableEq, Repr

/-- `add_alert` (validation and field resolution):
`alert_type = (data.get('alert_type') or 'price_above').strip()`,
`threshold = float(data.get('threshold') or 0)`; `posLookup` is the
`(market, symbol)` of the referenced position row when `position_id`
was given and found. -/
def add_alert (alert_type_in : Option String) (market_in symbol_in : String)
    (threshold_in : Option ℚ) (posLookup : Option (String × String)) :
    AddAlertResult :=
  let alert_type := pyStrip (pyOrStr alert_type_in "price_above")
  let threshold : ℚ := threshold_in.getD 0
  if alert_type ∈ valid_types then
    let market := match posLookup with
      | some (pm, _) => if pm = "" then market_in else pm
      | none => market_in
    let symbol := match posLookup with
      | some (_, ps) => if ps = "" then symbol_in else ps
      | none => symbol_in
    if market = "" ∨ symbol = "" then .missingMarketSymbol
    else if threshold ≤ 0 ∧ pyStartsWith alert_type "price_" then
      .nonPositivePriceThreshold
    else .accepted alert_type threshold market symbol
  else .invalidType alert_type

/-- The `update_alert` request payload: `none` = field absent from the
JSON body, `some v` = present with value `v` (`v = none` models a JSON
`null`, which the handler defaults like any other falsy value). -/
structure UpdateAlertReq where
  alert_type : Option (Option String)
  threshold : Option (Option ℚ)
  is_active : Option Bool
  repeat_interval : Option (Option Int)
deriving DecidableEq, Repr

/-- The column values an accepted `update_alert` writes. -/
structure AlertRowDelta where
  alert_type : Option String
  threshold : Option ℚ
  is_active : Option Bool
  is_triggered_reset : Bool
  repeat_interval : Option Int
deriving DecidableEq, Repr

/-- `update_alert`: `none` models the 400 `No fields to update` response;
otherwise the present fields are written as given — with defaulting
(`(data.get('alert_type') or 'price_above').strip()`,
`float(data.get('threshold') or 0)`, `int(data.get('repeat_interval') or
0)`) but without any validation. -/
def update_alert (req : UpdateAlertReq) : Option AlertRowDelta :=
  if req.alert_type = none ∧ req.threshold = none ∧ req.is_active = none ∧
      req.repeat_interval = none then
    none
  else
    some
      { alert_type := req.alert_type.map (fun v => pyStrip (pyOrStr v "price_above"))
        threshold := req.threshold.map (fun v => v.getD 0)
        is_active := req.is_active
        is_triggered_reset := req.is_active.getD false
        repeat_interval := req.repeat_interval.map (fun v => v.getD 0) }

/-- C9, amended.  `add_alert` rejects an unknown alert type, and rejects a
non-positive threshold — but only for `price_above`/`price_below`: a
`pnl_above`/`pnl_below` rule is accepted with any threshold, zero or
negative included.  `update_alert` validates nothing: whatever
`alert_type` and `threshold` values the payload carries are written to the
rule row as-is, so a malformed rule CAN reach the scheduler's evaluation
pass through an update. -/
theorem claim_C9_amended :
    (∀ (alert_type_in : Option String) (market symbol : String)
      (threshold_in : Option ℚ) (posLookup : Option (String × String)),
      pyStrip (pyOrStr alert_type_in "price_above") ∉ valid_types →
      add_alert alert_type_in market symbol threshold_in posLookup =
        .invalidType (pyStrip (pyOrStr alert_type_in "price_above"))) ∧
    (∀ (alert_type_in : Option String) (market symbol : String)
      (threshold_in : Option ℚ),
      pyStrip (pyOrStr alert_type_in "price_above") ∈ valid_types →
      pyStartsWith (pyStrip (pyOrStr alert_type_in "price_above")) "price_" = true →
      market ≠ "" → symbol ≠ "" → threshold_in.getD 0 ≤ 0 →
      add_alert alert_type_in market symbol threshold_in none =
        .nonPositivePriceThreshold) ∧
    (∀ (market symbol : String) (th : ℚ), market ≠ "" → symbol ≠ "" →
      add_alert (some "pnl_below") market symbol (some th) none =
        .accepted "pnl_below" th market symbol) ∧
    (∀ (v : Option String) (t : Option ℚ),
      update_alert ⟨some v, some t, none, none⟩ =
        some ⟨some (pyStrip (pyOrStr v "price_above")), some (t.getD 0),
          none, false, none⟩) ∧
    update_alert ⟨none, none, none, none⟩ = none := by
  refine ⟨?_, ?_, ?_, ?_, rfl⟩
  · intro alert_type_in market symbol threshold_in posLookup hinv
    unfold add_alert
    dsimp only
    rw [if_neg hinv]
  · intro alert_type_in market symbol threshold_in hval hpre hm hs hth
    unfold add_alert
    dsimp only
    rw [if_pos hval, if_neg (by
      rintro (h | h)
      · exact hm h
      · exact hs h),
      if_pos ⟨hth, hpre⟩]
  · intro market symbol th hm hs
    unfold add_alert
    dsimp only
    rw [if_pos (by decide), if_neg (by
      rintro (h | h)
      · exact hm h
      · exact hs h),
      if_neg (by
        rintro ⟨-, hpre⟩
        rw [show pyStrip (pyOrStr (some "pnl_below") "price_above") = "pnl_below"
          from rfl] at hpre
        exact absurd hpre (by decide))]
    rfl
  · intro v t
    unfold update_alert
    rw [if_neg (by rintro ⟨h, -⟩; exact Option.noConfusion h)]
    rfl

/-- C9 counterexample.  An update carrying an unknown alert type
(`"bogus_type"`, outside the four valid types) and a negative threshold is
accepted by `update_alert` and written to the rule row unvalidated — the
claim says such parameters are rejected synchronously at rule update and
can never reach the scheduler. -/
theorem claim_C9_counterexample :
    update_alert ⟨some (some "bogus_type"), some (some (-5)), none, none⟩ =
      some ⟨some "bogus_type", some (-5), none, false, none⟩ ∧
    ("bogus_type" ∉ valid_types) :=
  ⟨rfl, by decide⟩

/-- C9 witness: the amended theorem applied at concrete inputs — a
negative-threshold `price_below` creation is rejected, a
negative-threshold `pnl_below` creation is accepted, and an arbitrary
update is written unvalidated. -/
theorem claim_C9_witness :
    add_alert (some "price_below") "Crypto" "BTCUSDT" (some (-1)) none =
      .nonPositivePriceThreshold ∧
    add_alert (some "pnl_below") "Crypto" "BTCUSDT" (some (-1)) none =
      .accepted "pnl_below" (-1) "Crypto" "BTCUSDT" ∧
    update_alert ⟨some (some "bogus"), some (some 0), none, none⟩ =
      some ⟨some (pyStrip (pyOrStr (some "bogus") "price_above")),
        some ((some (0 : ℚ)).getD 0), none, false, none⟩ :=
  ⟨claim_C9_amended.2.1 (some "price_below") "Crypto" "BTCUSDT" (some (-1))
      (by decide) rfl (by decide) (by decide) (by norm_num),
    claim_C9_amended.2.2.1 "Crypto" "BTCUSDT" (-1) (by decide) (by decide),
    claim_C9_amended.2.2.2.1 (some "bogus") (some 0)⟩

end QuantDinger
